import Mathlib

/-!
Verification of the BCSD pointwise downscaling models
(`skdownscale/pointwise_models/bcsd.py`).

The source module is embedded shallowly:

* a pandas single-column time-indexed frame becomes a `List (Ts × ℚ)`
  of (timestamp, value) rows in index order;
* `df.groupby(key_fn)` becomes `groupby`: pandas applies the callable to
  each index label and iterates groups with keys in ascending order;
* `pd.concat(dfs).sort_index()` becomes `sortIndex ∘ List.flatten`;
* floating point numbers become exact rationals;
* raised exceptions become an `Except Err` result, and Python attribute
  access on attributes that a constructor path did not assign is made
  explicit with `Option` fields (reading `none` is an `attrErr`).

External collaborators (`QuantileMapper`, `PaddedDOYGrouper`,
`pd.Grouper`, sklearn's `check_is_fitted`) are out of scope of the
source; they are modelled at their interface, following the spec, at the
point where each is introduced below.
-/

set_option maxRecDepth 4000

namespace Bcsd

/-- A timestamp: calendar year, month (1-12) and day of month (1-31). -/
structure Ts where
  year : Nat
  month : Nat
  day : Nat
deriving DecidableEq, Repr

/-- Lexicographic (chronological) order on timestamps. -/
def tsLe (a b : Ts) : Prop :=
  a.year < b.year ∨ (a.year = b.year ∧
    (a.month < b.month ∨ (a.month = b.month ∧ a.day ≤ b.day)))

/-- Strict chronological order on timestamps. -/
def tsLt (a b : Ts) : Prop :=
  a.year < b.year ∨ (a.year = b.year ∧
    (a.month < b.month ∨ (a.month = b.month ∧ a.day < b.day)))

instance : DecidableRel tsLe := fun a b => by unfold tsLe; exact inferInstance

instance : DecidableRel tsLt := fun a b => by unfold tsLt; exact inferInstance

theorem Ts.ext' {a b : Ts} (h1 : a.year = b.year) (h2 : a.month = b.month)
    (h3 : a.day = b.day) : a = b := by
  cases a; cases b; simp_all

theorem tsLe_total (a b : Ts) : tsLe a b ∨ tsLe b a := by
  unfold tsLe; omega

theorem tsLe_trans {a b c : Ts} (h1 : tsLe a b) (h2 : tsLe b c) : tsLe a c := by
  unfold tsLe at *; omega

theorem tsLt_trans {a b c : Ts} (h1 : tsLt a b) (h2 : tsLt b c) : tsLt a c := by
  unfold tsLt at *; omega

theorem tsLt_irrefl (a : Ts) : ¬ tsLt a a := by
  unfold tsLt; omega

theorem tsLt_asymm {a b : Ts} (h : tsLt a b) : ¬ tsLt b a := by
  unfold tsLt at *; omega

theorem tsLe_of_lt {a b : Ts} (h : tsLt a b) : tsLe a b := by
  unfold tsLt at h; unfold tsLe; omega

theorem tsLt_of_le_of_ne {a b : Ts} (h : tsLe a b) (hne : a ≠ b) : tsLt a b := by
  unfold tsLe at h; unfold tsLt
  by_contra hc
  exact hne (Ts.ext' (by omega) (by omega) (by omega))

/-- A single-column time series: rows of (timestamp, value) in index order. -/
abbrev TSeries := List (Ts × ℚ)

/-- Row order induced by the time index. -/
def rowLe (a b : Ts × ℚ) : Prop := tsLe a.1 b.1

/-- Strict row order induced by the time index. -/
def rowLt (a b : Ts × ℚ) : Prop := tsLt a.1 b.1

instance : DecidableRel rowLe := fun a b => by unfold rowLe; exact inferInstance

instance : DecidableRel rowLt := fun a b => by unfold rowLt; exact inferInstance

instance : IsTotal (Ts × ℚ) rowLe := ⟨fun a b => tsLe_total a.1 b.1⟩

instance : IsTrans (Ts × ℚ) rowLe := ⟨fun _ _ _ h1 h2 => tsLe_trans h1 h2⟩

instance : IsTrans (Ts × ℚ) rowLt := ⟨fun _ _ _ h1 h2 => tsLt_trans h1 h2⟩

instance : IsAntisymm (Ts × ℚ) rowLt :=
  ⟨fun _ _ h1 h2 => absurd h1 (tsLt_asymm h2)⟩

/-- A valid time index: strictly increasing (monotone, duplicate-free),
as the spec's data model requires of every input series. -/
def validIdx (df : TSeries) : Prop := df.Pairwise rowLt

instance (df : TSeries) : Decidable (validIdx df) := by
  unfold validIdx; exact inferInstance

/-- `pd.concat(dfs).sort_index()`: stable sort of rows by the time index. -/
def sortIndex (df : TSeries) : TSeries := df.insertionSort rowLe

/-- The distinct group keys of a frame under a key callable, in ascending
order (pandas `groupby` sorts group keys). -/
def keysOf (f : Ts → Nat) (df : TSeries) : List Nat :=
  ((df.map (fun r => f r.1)).dedup).insertionSort (· ≤ ·)

/-- `df.groupby(key_fn)`: pandas applies the callable to each index label;
iterating the result yields (key, sub-frame) pairs with keys ascending and
each sub-frame keeping the original row order. -/
def groupby (f : Ts → Nat) (df : TSeries) : List (Nat × TSeries) :=
  (keysOf f df).map (fun k => (k, df.filter (fun r => f r.1 == k)))

/-- Association lookup, as used for `self.quantile_mappers_[key]` and
`climatology.loc[key]`. -/
def dget (d : List (Nat × α)) (k : Nat) : Option α :=
  match d.find? (fun p => p.1 == k) with
  | some p => some p.2
  | none => none

/-- `groups.mean()`: arithmetic mean of the values of a sub-frame. -/
def seriesMean (s : TSeries) : ℚ := (s.map Prod.snd).sum / s.length

/-- Per-group means, i.e. the climatology frame `groups.mean()`. -/
def groupMeans (gs : List (Nat × TSeries)) : List (Nat × ℚ) :=
  gs.map (fun kg => (kg.1, seriesMean kg.2))

/-- `MONTH_GROUPER`: maps a timestamp to its calendar month. -/
def MONTH_GROUPER (t : Ts) : Nat := t.month

/-- `DAY_GROUPER`: maps a timestamp to its day of month. -/
def DAY_GROUPER (t : Ts) : Nat := t.day

/-- Days of each calendar month in a non-leap year. -/
def monthLen (m : Nat) : Nat :=
  [31, 28, 31, 30, 31, 30, 31, 31, 30, 31, 30, 31].getD (m - 1) 0

/-- Day-of-year of a timestamp (fixed 365-day calendar). -/
def dayOfYear (t : Ts) : Nat :=
  ((List.range (t.month - 1)).map (fun i => monthLen (i + 1))).sum + t.day

/-- Padding window of the padded day-of-year grouper (± days). -/
def padWindow : Nat := 15

/-- Modelled from the spec: `PaddedDOYGrouper` (external grouping utility,
`groupers.py`, not under `src/`). Per the spec its per-row key is the
day-of-year bucket, and each bucket's fitting sample is drawn from a
window padded ± several days around that day-of-year; iterating it yields
(key, padded sub-frame) pairs with keys ascending. Leap-year
harmonisation is abstracted away by using a fixed 365-day calendar. -/
def paddedDOYGroups (df : TSeries) : List (Nat × TSeries) :=
  (keysOf dayOfYear df).map
    (fun k => (k, df.filter (fun r => Nat.dist (dayOfYear r.1) k ≤ padWindow)))

/-- Errors surfaced by fit/predict, mirroring the Python exceptions. -/
inductive Err where
  | keyErr (k : Nat)
  | notFittedErr (missing : List String)
  | valueErr (msg : String)
  | attrErr (attr : String)
  | typeErr
  | assertErr
  | alignErr
deriving DecidableEq, Repr

/-- The `time_grouper` configuration stored by `BcsdBase.__init__`:
either the callable it was given, the `PaddedDOYGrouper` class (chosen
for the string `'daily_nasa-nex'`), or a `pd.Grouper(freq=...)` built
from any other string. -/
inductive TimeGrouperCfg where
  | callable (f : Ts → Nat)
  | paddedDOY
  | pdGrouper (freq : String)

/-- The `time_grouper` argument of `BcsdBase.__init__`: a frequency
string or a key callable. -/
inductive TimeGrouperArg where
  | str (s : String)
  | fn (f : Ts → Nat)

/-- The state of a `BcsdBase` instance (either subclass).  Attributes
that some constructor or fit path leaves unassigned are `Option`s;
reading `none` is Python's `AttributeError`.  `qmT` stands for the
external `QuantileMapper` primitive together with `qm_kwargs`: a fitted
mapper is modelled as the data it was fit on, and `qmT data x` is
`QuantileMapper(**qm_kwargs).fit(data).transform([x])`. -/
structure Model where
  time_grouper : TimeGrouperCfg
  climate_trend_grouper : Option (Ts → Nat)
  timestep : Option String
  upsample : Option Bool
  climate_trend : Ts → Nat
  return_anoms : Bool
  qmT : List ℚ → ℚ → ℚ
  y_climo_ : Option (List (Nat × ℚ))
  quantile_mappers_ : Option (List (Nat × List ℚ))
  x_climo : Option (List (Nat × ℚ))

/-- `BcsdBase.__init__`.  Note that on the `'daily_nasa-nex'` string path
the instance gets `climate_trend_grouper`, `timestep` and `upsample`; on
the callable path it gets `timestep` and `upsample` but no
`climate_trend_grouper`; on any other string path (`pd.Grouper`) none of
the three is assigned.  `climate_trend` is always `MONTH_GROUPER`. -/
def initBcsd (time_grouper : TimeGrouperArg) (return_anoms : Bool)
    (climate_trend_grouper : Ts → Nat) (qmT : List ℚ → ℚ → ℚ) : Model :=
  match time_grouper with
  | .str s =>
    if s = "daily_nasa-nex" then
      { time_grouper := .paddedDOY
        climate_trend_grouper := some climate_trend_grouper
        timestep := some "daily"
        upsample := some true
        climate_trend := MONTH_GROUPER
        return_anoms := return_anoms
        qmT := qmT
        y_climo_ := none
        quantile_mappers_ := none
        x_climo := none }
    else
      { time_grouper := .pdGrouper s
        climate_trend_grouper := none
        timestep := none
        upsample := none
        climate_trend := MONTH_GROUPER
        return_anoms := return_anoms
        qmT := qmT
        y_climo_ := none
        quantile_mappers_ := none
        x_climo := none }
  | .fn f =>
    { time_grouper := .callable f
      climate_trend_grouper := none
      timestep := some "monthly"
      upsample := some false
      climate_trend := MONTH_GROUPER
      return_anoms := return_anoms
      qmT := qmT
      y_climo_ := none
      quantile_mappers_ := none
      x_climo := none }

/-- Replace only the `return_anoms` flag of a model. -/
def setAnoms (m : Model) (b : Bool) : Model := { m with return_anoms := b }

/-- The per-row key function a `time_grouper` configuration induces when
passed straight to `df.groupby(...)`:

* a callable is applied to each index label;
* `pd.Grouper(freq=s)` groups the index into calendar periods — we model
  the monthly frequency strings the class documents (default `'M'`), so
  the period key of a label is its (year, month) pair, encoded;
* the `PaddedDOYGrouper` class object is not a per-label key function,
  so grouping by it directly yields no meaningful keyed grouping
  (`none` here; an error at the call site). -/
def cfgKey : TimeGrouperCfg → Option (Ts → Nat)
  | .callable f => some f
  | .pdGrouper _ => some (fun t => t.year * 100 + t.month)
  | .paddedDOY => none

/-- `df.groupby(self.time_grouper)` as used directly (outside
`_create_groups`) by `BcsdPrecipitation.fit` and `predict`. -/
def applyTimeGrouper (cfg : TimeGrouperCfg) (df : TSeries) :
    Except Err (List (Nat × TSeries)) :=
  match cfgKey cfg with
  | some g => .ok (groupby g df)
  | none => .error .typeErr

/-- `BcsdBase._create_groups(df, climate_trend)`: at monthly timestep,
`df.groupby(self.time_grouper)`; at daily timestep, either
`df.groupby(self.climate_trend_grouper)` (when `climate_trend` is set)
or `self.time_grouper(df)`, i.e. constructing the `PaddedDOYGrouper` on
`df`; any other assigned timestep raises `TypeError`.  Reading an
unassigned attribute raises `AttributeError`. -/
def createGroups (m : Model) (df : TSeries) (climate_trend : Bool) :
    Except Err (List (Nat × TSeries)) :=
  match m.timestep with
  | none => .error (.attrErr "timestep")
  | some ts =>
    if ts = "monthly" then
      applyTimeGrouper m.time_grouper df
    else if ts = "daily" then
      if climate_trend then
        match m.climate_trend_grouper with
        | none => .error (.attrErr "climate_trend_grouper")
        | some g => .ok (groupby g df)
      else
        match m.time_grouper with
        | .paddedDOY => .ok (paddedDOYGroups df)
        | _ => .error .typeErr
    else .error .typeErr

/-- `BcsdBase._qm_fit_by_group`: one fitted `QuantileMapper` per (key,
group), stored under the key; the fitted mapper is modelled by the data
it was fit on (`ensure_samples_features` is the external single-column
normalisation, the identity here). -/
def qmFitByGroup (gs : List (Nat × TSeries)) : List (Nat × List ℚ) :=
  gs.map (fun kg => (kg.1, kg.2.map Prod.snd))

/-- One pass of the group loops of `_qm_transform_by_group`,
`_calc_ratio_anoms` and `_remove_climatology`: look up `kg.1` (a missing
key raises `KeyError` naming it, at the first offending group), then map
the group's rows with the per-key operation `op`.  The per-group output
frames keep each group's index. -/
def mapGroupsWith (lk : Nat → Option β) (op : β → (Ts × ℚ) → ℚ) :
    List (Nat × TSeries) → Except Err (List TSeries)
  | [] => .ok []
  | kg :: rest =>
    match lk kg.1 with
    | none => .error (.keyErr kg.1)
    | some c =>
      match mapGroupsWith lk op rest with
      | .error e => .error e
      | .ok dfs => .ok (kg.2.map (fun r => (r.1, op c r)) :: dfs)

/-- `BcsdBase._qm_transform_by_group`: per group, look up the stored
mapper for the key and transform the group's data; then
`pd.concat(dfs).sort_index()`. -/
def qmTransformByGroup (m : Model) (gs : List (Nat × TSeries)) :
    Except Err TSeries :=
  match m.quantile_mappers_ with
  | none => .error (.attrErr "quantile_mappers_")
  | some M =>
    match mapGroupsWith (dget M) (fun data r => m.qmT data r.2) gs with
    | .error e => .error e
    | .ok dfs => .ok (sortIndex dfs.flatten)

/-- sklearn's `check_is_fitted(self, self._fit_attributes)` with
`_fit_attributes = ["y_climo_", "quantile_mappers_"]` (external base
estimator lifecycle, modelled at the spec's interface: it must report
the missing attribute(s) when any is absent). -/
def checkIsFitted (m : Model) : Except Err Unit :=
  let missing :=
    (if m.y_climo_.isNone then ["y_climo_"] else []) ++
      (if m.quantile_mappers_.isNone then ["quantile_mappers_"] else [])
  if missing.isEmpty then .ok () else .error (.notFittedErr missing)

/-- `BcsdPrecipitation.fit(X, y)` (`X` is unused by the source).  The
climatology `y_climo_` is assigned *before* the positivity check, so it
survives a `ValueError`; the state after the call is returned together
with the outcome.  `.values.min()` of a zero-length climatology is
numpy's zero-size reduction error. -/
def precipFit (m : Model) (X y : TSeries) : Model × Except Err Unit :=
  match applyTimeGrouper m.time_grouper y with
  | .error e => (m, .error e)
  | .ok y_groups =>
    let climo := groupMeans y_groups
    let m1 := { m with y_climo_ := some climo }
    match (climo.map Prod.snd).min? with
    | none => (m1, .error (.valueErr "zero-size array reduction"))
    | some v =>
      if v ≤ 0 then
        (m1, .error (.valueErr "Invalid value in target climatology"))
      else
        ({ m1 with quantile_mappers_ := some (qmFitByGroup y_groups) }, .ok ())

/-- `BcsdPrecipitation._calc_ratio_anoms(obj, climatology)`: regroup by
`self.time_grouper`, divide each group by the climatology at its key,
concat and sort; `assert obj.shape == out.shape`. -/
def calcRatioAnoms (m : Model) (obj : TSeries)
    (climatology : List (Nat × ℚ)) : Except Err TSeries :=
  match applyTimeGrouper m.time_grouper obj with
  | .error e => .error e
  | .ok gs =>
    match mapGroupsWith (dget climatology) (fun c r => r.2 / c) gs with
    | .error e => .error e
    | .ok dfs =>
      let out := sortIndex dfs.flatten
      if obj.length = out.length then .ok out else .error .assertErr

/-- The steps of `BcsdPrecipitation.predict` up to the quantile-mapped
series `Xqm` (everything before the `return_anoms` branch). -/
def precipPredictCore (m : Model) (X : TSeries) : Except Err TSeries :=
  match checkIsFitted m with
  | .error e => .error e
  | .ok _ =>
    match applyTimeGrouper m.time_grouper X with
    | .error e => .error e
    | .ok xg => qmTransformByGroup m xg

/-- `BcsdPrecipitation.predict(X)`. -/
def precipPredict (m : Model) (X : TSeries) : Except Err TSeries :=
  match precipPredictCore m X with
  | .error e => .error e
  | .ok Xqm =>
    if m.return_anoms then
      match m.y_climo_ with
      | none => .error (.attrErr "y_climo_")
      | some climo => calcRatioAnoms m Xqm climo
    else .ok Xqm

/-- `BcsdTemperature.fit(X, y)`: source climatology `_x_climo` and target
climatology `y_climo_` from `_create_groups` (climate_trend false), then
the quantile mappers from the target groups. -/
def tempFit (m : Model) (X y : TSeries) : Model × Except Err Unit :=
  match createGroups m X false with
  | .error e => (m, .error e)
  | .ok xg =>
    let m1 := { m with x_climo := some (groupMeans xg) }
    match createGroups m1 y false with
    | .error e => (m1, .error e)
    | .ok yg =>
      let m2 := { m1 with y_climo_ := some (groupMeans yg) }
      ({ m2 with quantile_mappers_ := some (qmFitByGroup yg) }, .ok ())

/-- `x.rolling(9, center=True, min_periods=1).mean()` at one position:
the centered window covers offsets -4..+4, clipped at the series edges
(edge windows shrink instead of yielding missing values). -/
def rollingMeanAt (xs : List ℚ) (i : Nat) : ℚ :=
  let w := (xs.take (i + 5)).drop (i - 4)
  w.sum / w.length

/-- `rolling_func` applied to one group's value column. -/
def rollingFunc (xs : List ℚ) : List ℚ :=
  (List.range xs.length).map (rollingMeanAt xs)

/-- `X.groupby(f).apply(rolling_func)`: the rolling mean within each
group; since each group result keeps the group's own index, pandas
reassembles the output on the input's index — for the duplicate-free
monotone indexes the data model requires this equals sorting the
concatenated group results by index. -/
def applyRolling (f : Ts → Nat) (df : TSeries) : TSeries :=
  sortIndex
    (((groupby f df).map
        (fun kg => (kg.2.map Prod.fst).zip (rollingFunc (kg.2.map Prod.snd)))).flatten)

/-- `BcsdTemperature._remove_climatology(obj, climatology,
climate_trend)`: group via `_create_groups`, subtract the climatology at
each group's key, concat and sort; `assert obj.shape == out.shape`.
(The `.loc[key].values` / `.loc[key]` distinction of the monthly/daily
branches is immaterial for a one-column frame: both subtract the
scalar.) -/
def removeClimatology (m : Model) (obj : TSeries)
    (climatology : List (Nat × ℚ)) (climate_trend : Bool) :
    Except Err TSeries :=
  match createGroups m obj climate_trend with
  | .error e => .error e
  | .ok gs =>
    match mapGroupsWith (dget climatology) (fun c r => r.2 - c) gs with
    | .error e => .error e
    | .ok dfs =>
      let out := sortIndex dfs.flatten
      if obj.length = out.length then .ok out else .error .assertErr

/-- Pandas index-aligned elementwise subtraction (`X - X_shift`).
Mismatched index labels would yield missing values, which the rest of
the pipeline cannot represent; modelled as an alignment error. -/
def alignedSub (a b : TSeries) : Except Err TSeries :=
  if a.map Prod.fst = b.map Prod.fst then
    .ok (a.zipWith (fun r s => (r.1, r.2 - s.2)) b)
  else .error .alignErr

/-- Pandas index-aligned elementwise addition (`X_shift + Xqm`). -/
def alignedAdd (a b : TSeries) : Except Err TSeries :=
  if a.map Prod.fst = b.map Prod.fst then
    .ok (a.zipWith (fun r s => (r.1, r.2 + s.2)) b)
  else .error .alignErr

/-- The steps of `BcsdTemperature.predict` that do not depend on
`return_anoms`: the rolling trend, the shift (`X_shift`), the detrended
query (`X_no_shift`), the quantile-mapped series (`Xqm`) and the
shift-restored series (`X_qm_with_shift`), in source order. -/
def tempPredictCore (m : Model) (X : TSeries) :
    Except Err (TSeries × TSeries × TSeries × TSeries) :=
  match checkIsFitted m with
  | .error e => .error e
  | .ok _ =>
    let Xrm := applyRolling m.climate_trend X
    match m.x_climo with
    | none => .error (.attrErr "_x_climo")
    | some xc =>
      match removeClimatology m Xrm xc true with
      | .error e => .error e
      | .ok Xshift =>
        match alignedSub X Xshift with
        | .error e => .error e
        | .ok Xnoshift =>
          match createGroups m Xnoshift true with
          | .error e => .error e
          | .ok gs =>
            match qmTransformByGroup m gs with
            | .error e => .error e
            | .ok Xqm =>
              match alignedAdd Xshift Xqm with
              | .error e => .error e
              | .ok Xqs => .ok (Xshift, Xnoshift, Xqm, Xqs)

/-- `BcsdTemperature.predict(X)`. -/
def tempPredict (m : Model) (X : TSeries) : Except Err TSeries :=
  match tempPredictCore m X with
  | .error e => .error e
  | .ok (_, _, _, Xqs) =>
    if m.return_anoms then
      match m.y_climo_ with
      | none => .error (.attrErr "y_climo_")
      | some yc => removeClimatology m Xqs yc false
    else .ok Xqs

/-! ### Sorting and regrouping infrastructure -/

theorem sortIndex_perm (l : TSeries) : (sortIndex l).Perm l :=
  List.perm_insertionSort rowLe l

theorem sortIndex_sorted (l : TSeries) : (sortIndex l).Sorted rowLe :=
  List.sorted_insertionSort rowLe l

theorem rowLt_ne_fst {a b : Ts × ℚ} (h : rowLt a b) : a.1 ≠ b.1 :=
  fun he => absurd (show tsLt a.1 b.1 from h) (by rw [he]; exact tsLt_irrefl _)

theorem validIdx_nodup_fst {l : TSeries} (h : validIdx l) :
    (l.map Prod.fst).Nodup := by
  rw [List.Nodup, List.pairwise_map]
  exact h.imp rowLt_ne_fst

theorem validIdx_of_sorted_nodup {l : TSeries} (hs : l.Sorted rowLe)
    (hn : (l.map Prod.fst).Nodup) : validIdx l := by
  rw [List.Nodup, List.pairwise_map] at hn
  exact (hs.and hn).imp (fun hab => tsLt_of_le_of_ne hab.1 hab.2)

/-- Sorting any rearrangement of a frame with a valid (strictly
increasing) index recovers that frame exactly. -/
theorem sortIndex_eq_of_perm {l tgt : TSeries} (hp : l.Perm tgt)
    (ht : validIdx tgt) : sortIndex l = tgt := by
  have hperm : (sortIndex l).Perm tgt := (sortIndex_perm l).trans hp
  have hn : ((sortIndex l).map Prod.fst).Nodup :=
    (validIdx_nodup_fst ht).perm (hperm.map Prod.fst).symm
  have hs : (sortIndex l).Pairwise rowLt :=
    validIdx_of_sorted_nodup (sortIndex_sorted l) hn
  exact List.eq_of_perm_of_sorted hperm hs ht

theorem keysOf_nodup (f : Ts → Nat) (df : TSeries) : (keysOf f df).Nodup := by
  unfold keysOf
  exact ((df.map (fun r => f r.1)).nodup_dedup).perm
    (List.perm_insertionSort _ _).symm

theorem mem_keysOf {f : Ts → Nat} {df : TSeries} {r : Ts × ℚ}
    (h : r ∈ df) : f r.1 ∈ keysOf f df := by
  unfold keysOf
  rw [(List.perm_insertionSort (· ≤ ·) _).mem_iff, List.mem_dedup]
  exact List.mem_map_of_mem _ h

/-- Grouping by distinct covering keys partitions the frame: the
concatenation of the groups is a permutation of it. -/
theorem flatten_filter_perm (f : Ts → Nat) :
    ∀ (keys : List Nat) (df : TSeries), keys.Nodup →
      (∀ r ∈ df, f r.1 ∈ keys) →
      ((keys.map (fun k => df.filter (fun r => f r.1 == k))).flatten).Perm df := by
  intro keys
  induction keys with
  | nil =>
    intro df _ hcov
    cases df with
    | nil => simp
    | cons r t => exact absurd (hcov r (by simp)) (by simp)
  | cons k ks ih =>
    intro df hnd hcov
    have hsub : ∀ k' ∈ ks,
        df.filter (fun r => f r.1 == k') =
          (df.filter (fun r => !(f r.1 == k))).filter (fun r => f r.1 == k') := by
      intro k' hk'
      rw [List.filter_filter]
      refine (List.filter_congr ?_).symm
      intro r _
      cases heq : (f r.1 == k') with
      | false => simp
      | true =>
        have : f r.1 = k' := by simpa using heq
        have hne : ¬ (f r.1 == k) = true := by
          simp only [beq_iff_eq, this]
          intro hkk
          exact (List.nodup_cons.mp hnd).1 (hkk ▸ hk')
        simp [hne]
    have hrest :
        ((ks.map (fun k' => df.filter (fun r => f r.1 == k'))).flatten).Perm
          (df.filter (fun r => !(f r.1 == k))) := by
      have hmap : ks.map (fun k' => df.filter (fun r => f r.1 == k')) =
          ks.map (fun k' =>
            (df.filter (fun r => !(f r.1 == k))).filter (fun r => f r.1 == k')) :=
        List.map_congr_left hsub
      rw [hmap]
      refine ih _ (List.nodup_cons.mp hnd).2 ?_
      intro r hr
      have hr' := List.mem_filter.mp hr
      have := hcov r hr'.1
      rcases List.mem_cons.mp this with h | h
      · exact absurd (by simpa using h) (by simpa using hr'.2)
      · exact h
    have h1 : ((k :: ks).map (fun k' => df.filter (fun r => f r.1 == k'))).flatten
        = df.filter (fun r => f r.1 == k) ++
            (ks.map (fun k' => df.filter (fun r => f r.1 == k'))).flatten := by
      simp
    rw [h1]
    exact (hrest.append_left _).trans (List.filter_append_perm _ df)

theorem groupby_flatten_perm (f : Ts → Nat) (df : TSeries) :
    (((groupby f df).map Prod.snd).flatten).Perm df := by
  unfold groupby
  rw [List.map_map]
  exact flatten_filter_perm f (keysOf f df) df (keysOf_nodup f df)
    (fun r hr => mem_keysOf hr)

theorem validIdx_map_value {l : TSeries} (h : validIdx l)
    (g : (Ts × ℚ) → ℚ) : validIdx (l.map (fun r => (r.1, g r))) := by
  unfold validIdx
  rw [List.pairwise_map]
  exact h.imp (fun hab => hab)

/-- Master reassembly lemma: transforming each group of `groupby f obj`
by a per-row value map and reassembling with concat-and-sort yields the
per-row value map of `obj` itself (indexes and order preserved). -/
theorem reassemble_groupby (f : Ts → Nat) (obj : TSeries)
    (newVal : (Ts × ℚ) → ℚ) (hv : validIdx obj) :
    sortIndex (((groupby f obj).map
        (fun kg => kg.2.map (fun r => (r.1, newVal r)))).flatten) =
      obj.map (fun r => (r.1, newVal r)) := by
  have hmap : (groupby f obj).map
      (fun kg => kg.2.map (fun r => (r.1, newVal r))) =
        ((groupby f obj).map Prod.snd).map
          (List.map (fun r => (r.1, newVal r))) := by
    rw [List.map_map]
    rfl
  have hflat : (((groupby f obj).map
      (fun kg => kg.2.map (fun r => (r.1, newVal r)))).flatten) =
        (((groupby f obj).map Prod.snd).flatten).map
          (fun r => (r.1, newVal r)) := by
    rw [hmap, List.map_flatten]
  rw [hflat]
  exact sortIndex_eq_of_perm
    ((groupby_flatten_perm f obj).map _) (validIdx_map_value hv _)

theorem mem_groupby_snd {f : Ts → Nat} {df : TSeries} {kg : Nat × TSeries}
    (h : kg ∈ groupby f df) : kg.2 = df.filter (fun r => f r.1 == kg.1) := by
  unfold groupby at h
  obtain ⟨k, _, he⟩ := List.mem_map.mp h
  cases he
  rfl

theorem key_of_mem_groupby {f : Ts → Nat} {df : TSeries} {kg : Nat × TSeries}
    (h : kg ∈ groupby f df) {r : Ts × ℚ} (hr : r ∈ kg.2) : f r.1 = kg.1 := by
  rw [mem_groupby_snd h] at hr
  simpa using (List.mem_filter.mp hr).2

/-- A successful `mapGroupsWith` pass is the per-group value map with
each group's key looked up. -/
theorem mapGroupsWith_ok_eq {lk : Nat → Option β} {op : β → (Ts × ℚ) → ℚ}
    (d : β) : ∀ {gs : List (Nat × TSeries)} {dfs : List TSeries},
    mapGroupsWith lk op gs = .ok dfs →
      dfs = gs.map (fun kg => kg.2.map (fun r => (r.1, op ((lk kg.1).getD d) r))) := by
  intro gs
  induction gs with
  | nil =>
    intro dfs h
    simpa [mapGroupsWith] using (Except.ok.inj h).symm
  | cons kg rest ih =>
    intro dfs h
    unfold mapGroupsWith at h
    cases hlk : lk kg.1 with
    | none => rw [hlk] at h; exact absurd h (by simp)
    | some c =>
      rw [hlk] at h
      cases hrec : mapGroupsWith lk op rest with
      | error e => rw [hrec] at h; exact absurd h (by simp)
      | ok dfs' =>
        rw [hrec] at h
        have hdfs := Except.ok.inj h
        rw [← hdfs, ih hrec, List.map_cons, hlk]
        rfl

/-- A successful pass found every group key. -/
theorem mapGroupsWith_ok_lookup {lk : Nat → Option β} {op : β → (Ts × ℚ) → ℚ} :
    ∀ {gs : List (Nat × TSeries)} {dfs : List TSeries},
    mapGroupsWith lk op gs = .ok dfs →
      ∀ kg ∈ gs, ∃ c, lk kg.1 = some c := by
  intro gs
  induction gs with
  | nil => intro dfs _ kg hkg; exact absurd hkg (by simp)
  | cons kg0 rest ih =>
    intro dfs h kg hkg
    unfold mapGroupsWith at h
    cases hlk : lk kg0.1 with
    | none => rw [hlk] at h; exact absurd h (by simp)
    | some c =>
      rw [hlk] at h
      cases hrec : mapGroupsWith lk op rest with
      | error e => rw [hrec] at h; exact absurd h (by simp)
      | ok dfs' =>
        rcases List.mem_cons.mp hkg with he | hm
        · exact ⟨c, he ▸ hlk⟩
        · exact ih hrec kg hm

/-- The group loop raises `KeyError` at the first group whose key has no
stored entry. -/
theorem mapGroupsWith_err_first {lk : Nat → Option β} {op : β → (Ts × ℚ) → ℚ} :
    ∀ {gs : List (Nat × TSeries)} {k : Nat},
    (gs.map Prod.fst).find? (fun k => (lk k).isNone) = some k →
      mapGroupsWith lk op gs = .error (.keyErr k) := by
  intro gs
  induction gs with
  | nil => intro k h; exact absurd h (by simp)
  | cons kg rest ih =>
    intro k h
    rw [List.map_cons] at h
    cases hlk : lk kg.1 with
    | none =>
      rw [List.find?_cons_of_pos _ (by simp [hlk])] at h
      unfold mapGroupsWith
      rw [hlk, Option.some.inj h]
    | some c =>
      rw [List.find?_cons_of_neg _ (by simp [hlk])] at h
      unfold mapGroupsWith
      rw [hlk, ih h]

/-- Reassembly characterisation for a partitioning (`groupby`) pass:
concat-and-sort of the per-group maps is the per-row map of the input. -/
theorem mapGroups_groupby_sortIndex {lk : Nat → Option β}
    {op : β → (Ts × ℚ) → ℚ} (d : β) {f : Ts → Nat} {X : TSeries}
    {dfs : List TSeries} (hv : validIdx X)
    (h : mapGroupsWith lk op (groupby f X) = .ok dfs) :
    sortIndex dfs.flatten =
      X.map (fun r => (r.1, op ((lk (f r.1)).getD d) r)) := by
  rw [mapGroupsWith_ok_eq d h]
  have hconv : (groupby f X).map
      (fun kg => kg.2.map (fun r => (r.1, op ((lk kg.1).getD d) r))) =
        (groupby f X).map
          (fun kg => kg.2.map (fun r => (r.1, op ((lk (f r.1)).getD d) r))) := by
    apply List.map_congr_left
    intro kg hkg
    apply List.map_congr_left
    intro r hr
    rw [key_of_mem_groupby hkg hr]
  rw [hconv]
  exact reassemble_groupby f X _ hv

theorem map_eq_of_le_of_sum_eq (a b : Nat → Nat) :
    ∀ (ks : List Nat), (∀ k ∈ ks, b k ≤ a k) →
      (ks.map a).sum = (ks.map b).sum → ∀ k ∈ ks, a k = b k := by
  intro ks
  induction ks with
  | nil => intro _ _ k hk; exact absurd hk (by simp)
  | cons k0 t ih =>
    intro hle hsum k hk
    have hle0 : b k0 ≤ a k0 := hle k0 (by simp)
    have hlet : ∀ k ∈ t, b k ≤ a k := fun k hk => hle k (by simp [hk])
    have hsumle : (t.map b).sum ≤ (t.map a).sum := by
      apply List.sum_le_sum
      intro k hk
      exact hlet k (by simpa using hk)
    rw [List.map_cons, List.map_cons, List.sum_cons, List.sum_cons] at hsum
    have h0 : a k0 = b k0 := by omega
    have ht : (t.map a).sum = (t.map b).sum := by omega
    rcases List.mem_cons.mp hk with he | hm
    · exact he ▸ h0
    · exact ih hlet ht k hm

/-- Total size of the exact day-of-year partition of `X`. -/
theorem sum_filter_doy_eq (X : TSeries) :
    ((keysOf dayOfYear X).map
      (fun k => (X.filter (fun r => dayOfYear r.1 == k)).length)).sum = X.length := by
  have hperm := groupby_flatten_perm dayOfYear X
  have hlen := hperm.length_eq
  rw [List.length_flatten] at hlen
  unfold groupby at hlen
  rw [List.map_map, List.map_map] at hlen
  exact hlen

/-- If the concatenated padded day-of-year groups of `X` have exactly
`X`'s sample count, each padded window caught nothing beyond its own
day-of-year group, and the padded grouping is the exact day-of-year
`groupby`. -/
theorem padded_eq_groupby (X : TSeries)
    (hlen : ((paddedDOYGroups X).map (fun kg => kg.2.length)).sum = X.length) :
    paddedDOYGroups X = groupby dayOfYear X := by
  have hsubl : ∀ k : Nat,
      List.Sublist (X.filter (fun r => dayOfYear r.1 == k))
        (X.filter (fun r => decide (Nat.dist (dayOfYear r.1) k ≤ padWindow))) := by
    intro k
    apply List.monotone_filter_right
    intro r hr
    have : dayOfYear r.1 = k := by simpa using hr
    simp [this, Nat.dist_self]
  have hsum1 : ((keysOf dayOfYear X).map
      (fun k => (X.filter
        (fun r => decide (Nat.dist (dayOfYear r.1) k ≤ padWindow))).length)).sum
        = X.length := by
    unfold paddedDOYGroups at hlen
    rw [List.map_map] at hlen
    exact hlen
  have heq : ∀ k ∈ keysOf dayOfYear X,
      (X.filter (fun r => decide (Nat.dist (dayOfYear r.1) k ≤ padWindow))).length =
        (X.filter (fun r => dayOfYear r.1 == k)).length := by
    apply map_eq_of_le_of_sum_eq
    · intro k _
      exact (hsubl k).length_le
    · rw [hsum1, sum_filter_doy_eq]
  unfold paddedDOYGroups groupby
  apply List.map_congr_left
  intro k hk
  have := ((hsubl k).eq_of_length (heq k hk).symm)
  rw [this]

/-- Reassembly characterisation for the padded day-of-year pass, under
the length assert of `_remove_climatology`. -/
theorem mapGroups_padded_sortIndex {lk : Nat → Option β}
    {op : β → (Ts × ℚ) → ℚ} (d : β) {X : TSeries} {dfs : List TSeries}
    (hv : validIdx X)
    (h : mapGroupsWith lk op (paddedDOYGroups X) = .ok dfs)
    (hlen : X.length = (sortIndex dfs.flatten).length) :
    sortIndex dfs.flatten =
      X.map (fun r => (r.1, op ((lk (dayOfYear r.1)).getD d) r)) := by
  have hsizes : ((paddedDOYGroups X).map (fun kg => kg.2.length)).sum = X.length := by
    have h1 : (sortIndex dfs.flatten).length = dfs.flatten.length :=
      (sortIndex_perm dfs.flatten).length_eq
    have h2 : dfs.flatten.length = (dfs.map List.length).sum :=
      List.length_flatten dfs
    have h3 : dfs.map List.length = (paddedDOYGroups X).map (fun kg => kg.2.length) := by
      rw [mapGroupsWith_ok_eq d h, List.map_map]
      apply List.map_congr_left
      intro kg _
      simp
    rw [← h3, ← h2, ← h1]
    exact hlen.symm
  have hcoll := padded_eq_groupby X hsizes
  rw [hcoll] at h
  exact mapGroups_groupby_sortIndex d hv h

/-! ### Characterisations of the model operations -/

theorem validIdx_iff_pairwise_fst {l : TSeries} :
    validIdx l ↔ (l.map Prod.fst).Pairwise tsLt := by
  unfold validIdx
  rw [List.pairwise_map]
  exact Iff.rfl

theorem validIdx_of_fst_eq {l a : TSeries} (hv : validIdx a)
    (h : l.map Prod.fst = a.map Prod.fst) : validIdx l := by
  rw [validIdx_iff_pairwise_fst] at *
  rw [h]
  exact hv

theorem map_fst_map_value (l : TSeries) (g : (Ts × ℚ) → ℚ) :
    (l.map (fun r => (r.1, g r))).map Prod.fst = l.map Prod.fst := by
  rw [List.map_map]
  exact List.map_congr_left (fun a _ => rfl)

theorem mem_groupby_self {f : Ts → Nat} {df : TSeries} {r : Ts × ℚ}
    (h : r ∈ df) :
    (f r.1, df.filter (fun s => f s.1 == f r.1)) ∈ groupby f df := by
  unfold groupby
  exact List.mem_map_of_mem _ (mem_keysOf h)

/-- Per-row lookup success from a successful `groupby` pass. -/
theorem mapGroups_groupby_lookup {lk : Nat → Option β}
    {op : β → (Ts × ℚ) → ℚ} {f : Ts → Nat} {X : TSeries} {dfs : List TSeries}
    (h : mapGroupsWith lk op (groupby f X) = .ok dfs) :
    ∀ r ∈ X, ∃ c, lk (f r.1) = some c := by
  intro r hr
  exact mapGroupsWith_ok_lookup h _ (mem_groupby_self hr)

/-- The key function actually used by `_create_groups` for a model
configuration and `climate_trend` flag, where defined. -/
def ctKeyFn (m : Model) (climate_trend : Bool) : Option (Ts → Nat) :=
  match m.timestep with
  | none => none
  | some ts =>
    if ts = "monthly" then cfgKey m.time_grouper
    else if ts = "daily" then
      if climate_trend then m.climate_trend_grouper
      else
        match m.time_grouper with
        | .paddedDOY => some dayOfYear
        | _ => none
    else none

/-- Shape of a successful `_create_groups`: an exact `groupby` under the
key function `ctKeyFn`, except on the daily non-trend path, which yields
the padded day-of-year groups (whose per-row key is `dayOfYear`). -/
theorem createGroups_ok_shape {m : Model} {df : TSeries} {ct : Bool}
    {gs : List (Nat × TSeries)} (h : createGroups m df ct = .ok gs) :
    ∃ g, ctKeyFn m ct = some g ∧
      (gs = groupby g df ∨
        (gs = paddedDOYGroups df ∧ g = dayOfYear ∧ ct = false)) := by
  unfold createGroups at h
  unfold ctKeyFn
  cases hts : m.timestep with
  | none => simp only [hts] at h; exact absurd h (by simp)
  | some ts =>
    simp only [hts] at h ⊢
    by_cases h1 : ts = "monthly"
    · rw [if_pos h1] at h
      rw [if_pos h1]
      unfold applyTimeGrouper at h
      cases hk : cfgKey m.time_grouper with
      | none => simp only [hk] at h; exact absurd h (by simp)
      | some g =>
        simp only [hk] at h
        exact ⟨g, rfl, Or.inl (Except.ok.inj h).symm⟩
    · rw [if_neg h1] at h
      rw [if_neg h1]
      by_cases h2 : ts = "daily"
      · rw [if_pos h2] at h
        rw [if_pos h2]
        cases ct with
        | true =>
          rw [if_pos rfl] at h
          rw [if_pos rfl]
          cases hg : m.climate_trend_grouper with
          | none => simp only [hg] at h; exact absurd h (by simp)
          | some g =>
            simp only [hg] at h
            exact ⟨g, rfl, Or.inl (Except.ok.inj h).symm⟩
        | false =>
          rw [if_neg (by simp)] at h
          rw [if_neg (by simp)]
          cases htg : m.time_grouper with
          | paddedDOY =>
            simp only [htg] at h
            exact ⟨dayOfYear, rfl, Or.inr ⟨(Except.ok.inj h).symm, rfl, rfl⟩⟩
          | callable f => simp only [htg] at h; exact absurd h (by simp)
          | pdGrouper s => simp only [htg] at h; exact absurd h (by simp)
      · rw [if_neg h2] at h
        exact absurd h (by simp)

/-- Characterisation of a successful `_remove_climatology`: the result
is the input with the climatology of each row's group key subtracted,
and every row's key was found. -/
theorem removeClimatology_ok_char {m : Model} {obj out : TSeries}
    {climo : List (Nat × ℚ)} {ct : Bool} (hv : validIdx obj)
    (h : removeClimatology m obj climo ct = .ok out) :
    ∃ g, ctKeyFn m ct = some g ∧
      out = obj.map (fun r => (r.1, r.2 - (dget climo (g r.1)).getD 0)) ∧
      ∀ r ∈ obj, ∃ c, dget climo (g r.1) = some c := by
  unfold removeClimatology at h
  cases hcg : createGroups m obj ct with
  | error e => simp only [hcg] at h; exact absurd h (by simp)
  | ok gs =>
    simp only [hcg] at h
    cases hmw : mapGroupsWith (dget climo) (fun c r => r.2 - c) gs with
    | error e => simp only [hmw] at h; exact absurd h (by simp)
    | ok dfs =>
      simp only [hmw] at h
      by_cases hlen : obj.length = (sortIndex dfs.flatten).length
      · rw [if_pos hlen] at h
        have hout : out = sortIndex dfs.flatten := (Except.ok.inj h).symm
        obtain ⟨g, hg, hshape⟩ := createGroups_ok_shape hcg
        rcases hshape with hgb | ⟨hpad, hgd, _⟩
        · rw [hgb] at hmw
          exact ⟨g, hg, hout.trans (mapGroups_groupby_sortIndex 0 hv hmw),
            mapGroups_groupby_lookup hmw⟩
        · rw [hpad] at hmw
          have hsizes : ((paddedDOYGroups obj).map (fun kg => kg.2.length)).sum
              = obj.length := by
            have h1 : (sortIndex dfs.flatten).length = dfs.flatten.length :=
              (sortIndex_perm dfs.flatten).length_eq
            have h2 : dfs.flatten.length = (dfs.map List.length).sum :=
              List.length_flatten dfs
            have h3 : dfs.map List.length =
                (paddedDOYGroups obj).map (fun kg => kg.2.length) := by
              rw [mapGroupsWith_ok_eq 0 hmw, List.map_map]
              apply List.map_congr_left
              intro kg _
              simp
            rw [← h3, ← h2, ← h1]
            exact hlen.symm
          have hcoll := padded_eq_groupby obj hsizes
          rw [hcoll] at hmw
          subst hgd
          exact ⟨dayOfYear, hg, hout.trans (mapGroups_groupby_sortIndex 0 hv hmw),
            mapGroups_groupby_lookup hmw⟩
      · rw [if_neg hlen] at h
        exact absurd h (by simp)

/-- Characterisation of a successful `_calc_ratio_anoms`. -/
theorem calcRatioAnoms_ok_char {m : Model} {obj out : TSeries}
    {climo : List (Nat × ℚ)} (hv : validIdx obj)
    (h : calcRatioAnoms m obj climo = .ok out) :
    ∃ g, cfgKey m.time_grouper = some g ∧
      out = obj.map (fun r => (r.1, r.2 / (dget climo (g r.1)).getD 0)) ∧
      ∀ r ∈ obj, ∃ c, dget climo (g r.1) = some c := by
  unfold calcRatioAnoms applyTimeGrouper at h
  cases hk : cfgKey m.time_grouper with
  | none => simp only [hk] at h; exact absurd h (by simp)
  | some g =>
    simp only [hk] at h
    cases hmw : mapGroupsWith (dget climo) (fun c r => r.2 / c) (groupby g obj) with
    | error e => simp only [hmw] at h; exact absurd h (by simp)
    | ok dfs =>
      simp only [hmw] at h
      by_cases hlen : obj.length = (sortIndex dfs.flatten).length
      · rw [if_pos hlen] at h
        exact ⟨g, rfl,
          (Except.ok.inj h).symm.trans (mapGroups_groupby_sortIndex 0 hv hmw),
          mapGroups_groupby_lookup hmw⟩
      · rw [if_neg hlen] at h
        exact absurd h (by simp)

/-- Characterisation of a successful `_qm_transform_by_group` over a
`groupby`: the result maps each row through the mapper stored under its
key. -/
theorem qmTransform_groupby_char {m : Model} {f : Ts → Nat} {X out : TSeries}
    (hv : validIdx X) (h : qmTransformByGroup m (groupby f X) = .ok out) :
    ∃ M, m.quantile_mappers_ = some M ∧
      out = X.map (fun r => (r.1, m.qmT ((dget M (f r.1)).getD []) r.2)) ∧
      ∀ r ∈ X, ∃ c, dget M (f r.1) = some c := by
  unfold qmTransformByGroup at h
  cases hM : m.quantile_mappers_ with
  | none => simp only [hM] at h; exact absurd h (by simp)
  | some M =>
    simp only [hM] at h
    cases hmw : mapGroupsWith (dget M) (fun data r => m.qmT data r.2) (groupby f X) with
    | error e => simp only [hmw] at h; exact absurd h (by simp)
    | ok dfs =>
      simp only [hmw] at h
      exact ⟨M, rfl,
        (Except.ok.inj h).symm.trans (mapGroups_groupby_sortIndex [] hv hmw),
        mapGroups_groupby_lookup hmw⟩

/-! ### Rolling mean and aligned arithmetic -/

/-- The rows of `X` sharing `r`'s group key, in original order. -/
def sameKeyGroup (f : Ts → Nat) (X : TSeries) (r : Ts × ℚ) : TSeries :=
  X.filter (fun s => f s.1 == f r.1)

/-- In a strictly index-sorted frame, the number of rows before a given
position equals the count of rows with a strictly smaller timestamp. -/
theorem countP_rowLt_of_pairwise :
    ∀ (l : TSeries), l.Pairwise rowLt → ∀ i (hi : i < l.length),
      l.countP (fun s => decide (rowLt s l[i])) = i := by
  intro l
  induction l with
  | nil => intro _ i hi; simp at hi
  | cons a t ih =>
    intro hp i hi
    obtain ⟨ha, hpt⟩ := List.pairwise_cons.mp hp
    cases i with
    | zero =>
      simp only [List.getElem_cons_zero, List.countP_cons]
      have h0 : t.countP (fun s => decide (rowLt s a)) = 0 := by
        rw [List.countP_eq_zero]
        intro s hs
        simp only [decide_eq_true_eq]
        exact tsLt_asymm (ha s hs)
      rw [h0]
      simp [tsLt_irrefl a.1, rowLt]
    | succ i =>
      simp only [List.getElem_cons_succ, List.countP_cons]
      have hti : i < t.length := by simpa using hi
      have hlt : rowLt a t[i] := ha t[i] (t.getElem_mem hti)
      rw [ih hpt i hti]
      simp [hlt]

/-- `zip` of the index with the rolling means equals the per-row map
whose position argument is the count of earlier rows. -/
theorem zip_rolling_eq_map {l : TSeries} (hp : l.Pairwise rowLt) :
    (l.map Prod.fst).zip (rollingFunc (l.map Prod.snd)) =
      l.map (fun r => (r.1, rollingMeanAt (l.map Prod.snd)
        (l.countP (fun s => decide (rowLt s r))))) := by
  apply List.ext_getElem
  · simp [rollingFunc]
  · intro i h1 h2
    have hil : i < l.length := by simpa using h2
    have hz : i < ((l.map Prod.fst).zip (rollingFunc (l.map Prod.snd))).length := h1
    rw [List.getElem_zip]
    rw [List.getElem_map]
    unfold rollingFunc
    rw [List.getElem_map, List.getElem_map, List.getElem_range]
    rw [countP_rowLt_of_pairwise l hp i hil]

/-- Characterisation of `groupby(...).apply(rolling_func)`: each sample
receives the rolling mean of its own group's value column, evaluated at
its rank within the group, and the index is preserved. -/
theorem applyRolling_char (f : Ts → Nat) {X : TSeries} (hv : validIdx X) :
    applyRolling f X = X.map (fun r => (r.1,
      rollingMeanAt ((sameKeyGroup f X r).map Prod.snd)
        ((sameKeyGroup f X r).countP (fun s => decide (rowLt s r))))) := by
  unfold applyRolling
  have hmap : (groupby f X).map
      (fun kg => (kg.2.map Prod.fst).zip (rollingFunc (kg.2.map Prod.snd))) =
      (groupby f X).map (fun kg => kg.2.map (fun r => (r.1,
        rollingMeanAt ((sameKeyGroup f X r).map Prod.snd)
          ((sameKeyGroup f X r).countP (fun s => decide (rowLt s r)))))) := by
    apply List.map_congr_left
    intro kg hkg
    have hpw : kg.2.Pairwise rowLt := by
      rw [mem_groupby_snd hkg]
      exact hv.filter _
    rw [zip_rolling_eq_map hpw]
    apply List.map_congr_left
    intro r hr
    have hk := key_of_mem_groupby hkg hr
    have hsg : sameKeyGroup f X r = kg.2 := by
      unfold sameKeyGroup
      rw [mem_groupby_snd hkg, hk]
    rw [hsg]
  rw [hmap]
  exact reassemble_groupby f X _ hv

theorem alignedSub_ok {a b out : TSeries} (h : alignedSub a b = .ok out) :
    a.map Prod.fst = b.map Prod.fst ∧
      out = a.zipWith (fun r s => (r.1, r.2 - s.2)) b := by
  unfold alignedSub at h
  by_cases hidx : a.map Prod.fst = b.map Prod.fst
  · rw [if_pos hidx] at h
    exact ⟨hidx, (Except.ok.inj h).symm⟩
  · rw [if_neg hidx] at h
    exact absurd h (by simp)

theorem alignedAdd_ok {a b out : TSeries} (h : alignedAdd a b = .ok out) :
    a.map Prod.fst = b.map Prod.fst ∧
      out = a.zipWith (fun r s => (r.1, r.2 + s.2)) b := by
  unfold alignedAdd at h
  by_cases hidx : a.map Prod.fst = b.map Prod.fst
  · rw [if_pos hidx] at h
    exact ⟨hidx, (Except.ok.inj h).symm⟩
  · rw [if_neg hidx] at h
    exact absurd h (by simp)

theorem zipWith_row_map_fst (op : ℚ → ℚ → ℚ) :
    ∀ (a b : TSeries), a.length = b.length →
      (a.zipWith (fun r s => (r.1, op r.2 s.2)) b).map Prod.fst = a.map Prod.fst := by
  intro a
  induction a with
  | nil => intro b _; simp
  | cons r t ih =>
    intro b hb
    cases b with
    | nil => simp at hb
    | cons s u =>
      simp only [List.zipWith_cons_cons, List.map_cons]
      rw [ih u (by simpa using hb)]

instance {ε α : Type} [DecidableEq ε] [DecidableEq α] :
    DecidableEq (Except ε α) := fun a b =>
  match a, b with
  | .ok x, .ok y =>
    if h : x = y then .isTrue (by rw [h]) else .isFalse (by simp [h])
  | .error x, .error y =>
    if h : x = y then .isTrue (by rw [h]) else .isFalse (by simp [h])
  | .ok _, .error _ => .isFalse (by simp)
  | .error _, .ok _ => .isFalse (by simp)

/-! ### Predict pipelines -/

theorem checkIsFitted_ok {m : Model} {u : Unit}
    (h : checkIsFitted m = .ok u) :
    m.y_climo_.isSome ∧ m.quantile_mappers_.isSome := by
  unfold checkIsFitted at h
  by_cases h1 : m.y_climo_.isNone
  · simp [h1] at h
  · by_cases h2 : m.quantile_mappers_.isNone
    · simp [h1, h2] at h
    · constructor
      · simpa [Option.isNone_iff_eq_none, Option.isSome_iff_ne_none] using h1
      · simpa [Option.isNone_iff_eq_none, Option.isSome_iff_ne_none] using h2

/-- Characterisation of the successful precipitation predict pipeline up
to `Xqm`. -/
theorem precipPredictCore_ok_char {m : Model} {X out : TSeries}
    (hv : validIdx X) (h : precipPredictCore m X = .ok out) :
    ∃ g M, cfgKey m.time_grouper = some g ∧ m.quantile_mappers_ = some M ∧
      out = X.map (fun r => (r.1, m.qmT ((dget M (g r.1)).getD []) r.2)) ∧
      ∀ r ∈ X, ∃ c, dget M (g r.1) = some c := by
  unfold precipPredictCore at h
  cases hcf : checkIsFitted m with
  | error e => simp only [hcf] at h; exact absurd h (by simp)
  | ok u =>
    simp only [hcf] at h
    unfold applyTimeGrouper at h
    cases hk : cfgKey m.time_grouper with
    | none => simp only [hk] at h; exact absurd h (by simp)
    | some g =>
      simp only [hk] at h
      obtain ⟨M, hM, hout, hlkp⟩ := qmTransform_groupby_char hv h
      exact ⟨g, M, rfl, hM, hout, hlkp⟩

/-- Characterisation of the successful temperature predict pipeline:
every reassembled stage preserves the query index, the detrended series
is the aligned difference with the shift, and the restored series is the
aligned sum of shift and quantile-mapped series. -/
theorem tempPredictCore_ok_char {m : Model} {X S N Q R : TSeries}
    (hv : validIdx X)
    (h : tempPredictCore m X = .ok (S, N, Q, R)) :
    S.map Prod.fst = X.map Prod.fst ∧
    N = X.zipWith (fun r s => (r.1, r.2 - s.2)) S ∧
    Q.map Prod.fst = X.map Prod.fst ∧
    R = S.zipWith (fun r s => (r.1, r.2 + s.2)) Q ∧
    R.map Prod.fst = X.map Prod.fst := by
  unfold tempPredictCore at h
  cases hcf : checkIsFitted m with
  | error e => simp only [hcf] at h; exact absurd h (by simp)
  | ok u =>
    simp only [hcf] at h
    cases hxc : m.x_climo with
    | none => simp only [hxc] at h; exact absurd h (by simp)
    | some xc =>
      simp only [hxc] at h
      have hrm_idx : (applyRolling m.climate_trend X).map Prod.fst = X.map Prod.fst := by
        rw [applyRolling_char m.climate_trend hv]
        exact map_fst_map_value X _
      have hv_rm : validIdx (applyRolling m.climate_trend X) :=
        validIdx_of_fst_eq hv hrm_idx
      cases hrc : removeClimatology m (applyRolling m.climate_trend X) xc true with
      | error e => simp only [hrc] at h; exact absurd h (by simp)
      | ok S0 =>
        simp only [hrc] at h
        obtain ⟨g1, _, hS0, _⟩ := removeClimatology_ok_char hv_rm hrc
        have hS0_idx : S0.map Prod.fst = X.map Prod.fst := by
          rw [hS0, map_fst_map_value]
          exact hrm_idx
        have hv_S0 : validIdx S0 := validIdx_of_fst_eq hv hS0_idx
        cases hsub : alignedSub X S0 with
        | error e => simp only [hsub] at h; exact absurd h (by simp)
        | ok N0 =>
          simp only [hsub] at h
          obtain ⟨hidx1, hN0⟩ := alignedSub_ok hsub
          have hlen1 : X.length = S0.length := by
            have := congrArg List.length hidx1
            simpa using this
          have hN0_idx : N0.map Prod.fst = X.map Prod.fst := by
            rw [hN0]
            exact zipWith_row_map_fst _ X S0 hlen1
          have hv_N0 : validIdx N0 := validIdx_of_fst_eq hv hN0_idx
          cases hcg : createGroups m N0 true with
          | error e => simp only [hcg] at h; exact absurd h (by simp)
          | ok gs =>
            simp only [hcg] at h
            obtain ⟨g2, _, hshape⟩ := createGroups_ok_shape hcg
            rcases hshape with hgb | ⟨_, _, hcf2⟩
            · subst hgb
              cases hqm : qmTransformByGroup m (groupby g2 N0) with
              | error e => simp only [hqm] at h; exact absurd h (by simp)
              | ok Q0 =>
                simp only [hqm] at h
                obtain ⟨M, _, hQ0, _⟩ := qmTransform_groupby_char hv_N0 hqm
                have hQ0_idx : Q0.map Prod.fst = X.map Prod.fst := by
                  rw [hQ0, map_fst_map_value]
                  exact hN0_idx
                cases hadd : alignedAdd S0 Q0 with
                | error e => simp only [hadd] at h; exact absurd h (by simp)
                | ok R0 =>
                  simp only [hadd] at h
                  obtain ⟨hidx2, hR0⟩ := alignedAdd_ok hadd
                  have hlen2 : S0.length = Q0.length := by
                    have := congrArg List.length hidx2
                    simpa using this
                  have hR0_idx : R0.map Prod.fst = X.map Prod.fst := by
                    rw [hR0, zipWith_row_map_fst _ S0 Q0 hlen2]
                    exact hS0_idx
                  obtain ⟨hS, hN, hQ, hR⟩ : S0 = S ∧ N0 = N ∧ Q0 = Q ∧ R0 = R := by
                    have := Except.ok.inj h
                    simpa [Prod.ext_iff] using this
                  subst hS
                  subst hN
                  subst hQ
                  subst hR
                  exact ⟨hS0_idx, hN0, hQ0_idx, hR0, hR0_idx⟩
            · exact absurd hcf2 (by simp)

/-! ### Claim theorems -/

theorem length_eq_of_fst_eq {a b : TSeries}
    (h : a.map Prod.fst = b.map Prod.fst) : a.length = b.length := by
  have := congrArg List.length h
  simpa using this

/-- C1: for every fitted model (precipitation or temperature) and every
valid query series `X`, a returned prediction has exactly `len(X)`
samples and exactly `X`'s index, in original timestamp order (so the
index sets agree with no drop and no duplicate). -/
theorem predict_roundtrip_index :
    (∀ (m : Model) (X out : TSeries), validIdx X →
      precipPredict m X = .ok out →
        out.map Prod.fst = X.map Prod.fst ∧ out.length = X.length) ∧
    (∀ (m : Model) (X out : TSeries), validIdx X →
      tempPredict m X = .ok out →
        out.map Prod.fst = X.map Prod.fst ∧ out.length = X.length) := by
  constructor
  · intro m X out hv h
    unfold precipPredict at h
    cases hcore : precipPredictCore m X with
    | error e => simp only [hcore] at h; exact absurd h (by simp)
    | ok Xqm =>
      simp only [hcore] at h
      obtain ⟨g, M, _, _, hXqm, _⟩ := precipPredictCore_ok_char hv hcore
      have hXqm_idx : Xqm.map Prod.fst = X.map Prod.fst := by
        rw [hXqm]
        exact map_fst_map_value X _
      have hv_qm : validIdx Xqm := validIdx_of_fst_eq hv hXqm_idx
      cases hra : m.return_anoms with
      | false =>
        rw [hra, if_neg (by simp)] at h
        have : Xqm = out := Except.ok.inj h
        subst this
        exact ⟨hXqm_idx, length_eq_of_fst_eq hXqm_idx⟩
      | true =>
        rw [hra, if_pos rfl] at h
        cases hyc : m.y_climo_ with
        | none => simp only [hyc] at h; exact absurd h (by simp)
        | some climo =>
          simp only [hyc] at h
          obtain ⟨g2, _, hout, _⟩ := calcRatioAnoms_ok_char hv_qm h
          have hidx : out.map Prod.fst = X.map Prod.fst := by
            rw [hout, map_fst_map_value]
            exact hXqm_idx
          exact ⟨hidx, length_eq_of_fst_eq hidx⟩
  · intro m X out hv h
    unfold tempPredict at h
    cases hcore : tempPredictCore m X with
    | error e => simp only [hcore] at h; exact absurd h (by simp)
    | ok tup =>
      obtain ⟨S, N, Q, R⟩ := tup
      simp only [hcore] at h
      obtain ⟨_, _, _, _, hR_idx⟩ := tempPredictCore_ok_char hv hcore
      have hv_R : validIdx R := validIdx_of_fst_eq hv hR_idx
      cases hra : m.return_anoms with
      | false =>
        rw [hra, if_neg (by simp)] at h
        have : R = out := Except.ok.inj h
        subst this
        exact ⟨hR_idx, length_eq_of_fst_eq hR_idx⟩
      | true =>
        rw [hra, if_pos rfl] at h
        cases hyc : m.y_climo_ with
        | none => simp only [hyc] at h; exact absurd h (by simp)
        | some yc =>
          simp only [hyc] at h
          obtain ⟨g2, _, hout, _⟩ := removeClimatology_ok_char hv_R h
          have hidx : out.map Prod.fst = X.map Prod.fst := by
            rw [hout, map_fst_map_value]
            exact hR_idx
          exact ⟨hidx, length_eq_of_fst_eq hidx⟩

/-- The identity stand-in for the external quantile-map transform, used
by the concrete witnesses. -/
def qmIdent : List ℚ → ℚ → ℚ := fun _ x => x

/-- A concrete monthly precipitation model fitted on one January sample. -/
def mPw : Model :=
  (precipFit (initBcsd (.fn MONTH_GROUPER) false DAY_GROUPER qmIdent)
    [] [(⟨2000, 1, 1⟩, 2)]).1

/-- A concrete monthly temperature model fitted on one January sample. -/
def mTw : Model :=
  (tempFit (initBcsd (.fn MONTH_GROUPER) false DAY_GROUPER qmIdent)
    [(⟨2000, 1, 1⟩, 2)] [(⟨2000, 1, 1⟩, 2)]).1

/-- A concrete valid one-sample query. -/
def Xw : TSeries := [(⟨2001, 1, 7⟩, 10)]

theorem predict_roundtrip_index_witness :
    validIdx Xw ∧ precipPredict mPw Xw = .ok [(⟨2001, 1, 7⟩, 10)] ∧
      tempPredict mTw Xw = .ok [(⟨2001, 1, 7⟩, 10)] ∧
      ([((⟨2001, 1, 7⟩ : Ts), (10 : ℚ))].map Prod.fst = Xw.map Prod.fst ∧
        ([((⟨2001, 1, 7⟩ : Ts), (10 : ℚ))] : TSeries).length = Xw.length) ∧
      ([((⟨2001, 1, 7⟩ : Ts), (10 : ℚ))].map Prod.fst = Xw.map Prod.fst ∧
        ([((⟨2001, 1, 7⟩ : Ts), (10 : ℚ))] : TSeries).length = Xw.length) := by
  have hp : precipPredict mPw Xw = .ok [(⟨2001, 1, 7⟩, 10)] := by
    with_unfolding_all rfl
  have ht : tempPredict mTw Xw = .ok [(⟨2001, 1, 7⟩, 10)] := by
    with_unfolding_all rfl
  exact ⟨by decide, hp, ht,
    predict_roundtrip_index.1 mPw Xw _ (by decide) hp,
    predict_roundtrip_index.2 mTw Xw _ (by decide) ht⟩

/-- The default row used with `List.getD` in elementwise statements. -/
def r0 : Ts × ℚ := (⟨0, 0, 0⟩, 0)

theorem checkIsFitted_error_of_missing {m : Model}
    (e : Err) (hc : checkIsFitted m = .error e) (X : TSeries) :
    precipPredict m X = .error e ∧ tempPredict m X = .error e := by
  constructor
  · unfold precipPredict precipPredictCore
    simp only [hc]
  · unfold tempPredict tempPredictCore
    simp only [hc]

/-- C8: calling predict on a model whose fitted attributes `y_climo_` or
`quantile_mappers_` are absent fails at the very first step with a
not-fitted error that names the missing attribute(s), for both models;
no grouping or transformation is performed and no default is used. -/
theorem predict_not_fitted_error (m : Model) (X : TSeries)
    (h : m.y_climo_ = none ∨ m.quantile_mappers_ = none) :
    ∃ missing, missing ≠ [] ∧
      precipPredict m X = .error (.notFittedErr missing) ∧
      tempPredict m X = .error (.notFittedErr missing) ∧
      (m.y_climo_ = none → "y_climo_" ∈ missing) ∧
      (m.quantile_mappers_ = none → "quantile_mappers_" ∈ missing) := by
  cases hyc : m.y_climo_ with
  | some yc =>
    have hqm : m.quantile_mappers_ = none := by
      rcases h with h1 | h2
      · rw [h1] at hyc
        exact absurd hyc (by simp)
      · exact h2
    have hc : checkIsFitted m = .error (.notFittedErr ["quantile_mappers_"]) := by
      unfold checkIsFitted
      rw [hyc, hqm]
      rfl
    obtain ⟨hp, ht⟩ := checkIsFitted_error_of_missing _ hc X
    exact ⟨["quantile_mappers_"], by simp, hp, ht, by simp, by simp⟩
  | none =>
    cases hqm : m.quantile_mappers_ with
    | some M =>
      have hc : checkIsFitted m = .error (.notFittedErr ["y_climo_"]) := by
        unfold checkIsFitted
        rw [hyc, hqm]
        rfl
      obtain ⟨hp, ht⟩ := checkIsFitted_error_of_missing _ hc X
      exact ⟨["y_climo_"], by simp, hp, ht, by simp, by simp⟩
    | none =>
      have hc : checkIsFitted m =
          .error (.notFittedErr ["y_climo_", "quantile_mappers_"]) := by
        unfold checkIsFitted
        rw [hyc, hqm]
        rfl
      obtain ⟨hp, ht⟩ := checkIsFitted_error_of_missing _ hc X
      exact ⟨["y_climo_", "quantile_mappers_"], by simp, hp, ht,
        by simp, by simp⟩

theorem predict_not_fitted_error_witness :
    (initBcsd (.fn MONTH_GROUPER) true DAY_GROUPER qmIdent).y_climo_ = none ∧
    ∃ missing, missing ≠ [] ∧
      precipPredict (initBcsd (.fn MONTH_GROUPER) true DAY_GROUPER qmIdent) Xw =
        .error (.notFittedErr missing) ∧
      tempPredict (initBcsd (.fn MONTH_GROUPER) true DAY_GROUPER qmIdent) Xw =
        .error (.notFittedErr missing) ∧
      ((initBcsd (.fn MONTH_GROUPER) true DAY_GROUPER qmIdent).y_climo_ = none →
        "y_climo_" ∈ missing) ∧
      ((initBcsd (.fn MONTH_GROUPER) true DAY_GROUPER qmIdent).quantile_mappers_ = none →
        "quantile_mappers_" ∈ missing) :=
  ⟨rfl, predict_not_fitted_error _ Xw (Or.inl rfl)⟩

theorem checkIsFitted_ok_of_some {m : Model} {yc : List (Nat × ℚ)}
    {M : List (Nat × List ℚ)} (hyc : m.y_climo_ = some yc)
    (hM : m.quantile_mappers_ = some M) : checkIsFitted m = .ok () := by
  unfold checkIsFitted
  rw [hyc, hM]
  rfl

/-- Total size of the groups of an exact `groupby` partition. -/
theorem sum_groupby_lengths (f : Ts → Nat) (obj : TSeries) :
    ((groupby f obj).map (fun kg => kg.2.length)).sum = obj.length := by
  have hlen := (groupby_flatten_perm f obj).length_eq
  rw [List.length_flatten, List.map_map] at hlen
  exact hlen

/-- The group loop can only fail with a `KeyError`, and the named key
has no stored entry. -/
theorem mapGroupsWith_error_char {lk : Nat → Option β}
    {op : β → (Ts × ℚ) → ℚ} :
    ∀ {gs : List (Nat × TSeries)} {e : Err},
      mapGroupsWith lk op gs = .error e →
        ∃ k, e = .keyErr k ∧ lk k = none := by
  intro gs
  induction gs with
  | nil =>
    intro e h
    unfold mapGroupsWith at h
    exact absurd h (by simp)
  | cons kg rest ih =>
    intro e h
    unfold mapGroupsWith at h
    cases hlk : lk kg.1 with
    | none =>
      rw [hlk] at h
      exact ⟨kg.1, (Except.error.inj h).symm, hlk⟩
    | some c =>
      rw [hlk] at h
      cases hrec : mapGroupsWith lk op rest with
      | error e2 =>
        rw [hrec] at h
        obtain ⟨k, hk, hn⟩ := ih hrec
        exact ⟨k, (Except.error.inj h).symm.trans hk, hn⟩
      | ok dfs =>
        rw [hrec] at h
        exact absurd h (by simp)

/-- With the `climate_trend` flag set, `_create_groups` is always the
exact `groupby` under the model's trend key function. -/
theorem createGroups_true_of_ctKeyFn {m : Model} {g : Ts → Nat}
    (hg : ctKeyFn m true = some g) (df : TSeries) :
    createGroups m df true = .ok (groupby g df) := by
  unfold ctKeyFn at hg
  unfold createGroups
  cases hts : m.timestep with
  | none =>
    simp only [hts] at hg
    exact absurd hg (by simp)
  | some ts =>
    simp only [hts] at hg ⊢
    by_cases h1 : ts = "monthly"
    · rw [if_pos h1] at hg ⊢
      unfold applyTimeGrouper
      simp only [hg]
    · rw [if_neg h1] at hg ⊢
      by_cases h2 : ts = "daily"
      · rw [if_pos h2] at hg ⊢
        rw [if_pos trivial] at hg ⊢
        cases hctg : m.climate_trend_grouper with
        | none =>
          rw [hctg] at hg
          exact absurd hg (by simp)
        | some g2 =>
          rw [hctg] at hg
          simp only [hctg, Option.some.inj hg]
      · rw [if_neg h2] at hg
        exact absurd hg (by simp)

/-- A failing `_remove_climatology` pass over a trend (`groupby`)
grouping is a `KeyError` naming a key absent from the climatology (the
shape assert cannot fire on an exact partition). -/
theorem removeClimatology_true_error_char {m : Model} {obj : TSeries}
    {climo : List (Nat × ℚ)} {g : Ts → Nat} {e : Err}
    (hg : ctKeyFn m true = some g)
    (h : removeClimatology m obj climo true = .error e) :
    ∃ k, e = .keyErr k ∧ dget climo k = none := by
  unfold removeClimatology at h
  simp only [createGroups_true_of_ctKeyFn hg obj] at h
  cases hmw : mapGroupsWith (dget climo) (fun c r => r.2 - c) (groupby g obj) with
  | error e2 =>
    simp only [hmw] at h
    obtain ⟨k, hk, hn⟩ := mapGroupsWith_error_char hmw
    exact ⟨k, (Except.error.inj h).symm.trans hk, hn⟩
  | ok dfs =>
    simp only [hmw] at h
    have hlen : obj.length = (sortIndex dfs.flatten).length := by
      have h1 : (sortIndex dfs.flatten).length = dfs.flatten.length :=
        (sortIndex_perm dfs.flatten).length_eq
      have h2 := List.length_flatten dfs
      have h3 : dfs.map List.length =
          (groupby g obj).map (fun kg => kg.2.length) := by
        rw [mapGroupsWith_ok_eq 0 hmw, List.map_map]
        apply List.map_congr_left
        intro kg _
        simp
      rw [h1, h2, h3, sum_groupby_lengths]
    rw [if_pos hlen] at h
    exact absurd h (by simp)

/-- A sample of `X` whose key has no stored entry yields a group of any
index-equal frame whose key lookup fails. -/
theorem exists_missing_group {lk : Nat → Option β} {g : Ts → Nat}
    {X N : TSeries} (hfst : N.map Prod.fst = X.map Prod.fst)
    {r : Ts × ℚ} (hr : r ∈ X) (hmiss : lk (g r.1) = none) :
    ∃ kg ∈ groupby g N, lk kg.1 = none := by
  have hts : r.1 ∈ N.map Prod.fst := by
    rw [hfst]
    exact List.mem_map_of_mem Prod.fst hr
  obtain ⟨r2, hr2, hr2eq⟩ := List.mem_map.mp hts
  refine ⟨(g r2.1, N.filter (fun s => g s.1 == g r2.1)),
    mem_groupby_self hr2, ?_⟩
  simpa [hr2eq] using hmiss

/-- C7: a query containing a sample whose group key has no fitted
quantile mapper makes predict fail with a `KeyError` naming an
offending key, deterministically (predict is a function of its input),
with no fallback to another group's mapper and no partial output — for
both models.  For `BcsdPrecipitation.predict` the named key is the
first group key without a mapper in sorted group order and itself has
no mapper; for `BcsdTemperature.predict` the pipeline aborts at its
first failing lookup, so the named key has no fitted mapper or — when
the shift step's source-climatology lookup fails first — is a group key
absent from `_x_climo`; in every case a key lookup failure is raised
and no output is returned. -/
theorem predict_missing_mapper_keyerror :
    (∀ (m : Model) (X : TSeries) (yc : List (Nat × ℚ))
        (M : List (Nat × List ℚ)) (g : Ts → Nat) (k : Nat),
      m.y_climo_ = some yc → m.quantile_mappers_ = some M →
      cfgKey m.time_grouper = some g →
      ((groupby g X).map Prod.fst).find?
        (fun k => (dget M k).isNone) = some k →
      precipPredict m X = .error (.keyErr k) ∧ dget M k = none ∧
        ∀ out, precipPredict m X ≠ .ok out) ∧
    (∀ (m : Model) (X : TSeries) (yc xc : List (Nat × ℚ))
        (M : List (Nat × List ℚ)) (g : Ts → Nat) (r : Ts × ℚ),
      m.y_climo_ = some yc → m.quantile_mappers_ = some M →
      m.x_climo = some xc → ctKeyFn m true = some g → validIdx X →
      r ∈ X → dget M (g r.1) = none →
      ∃ k, tempPredict m X = .error (.keyErr k) ∧
        (dget M k = none ∨ dget xc k = none) ∧
        ∀ out, tempPredict m X ≠ .ok out) := by
  constructor
  · intro m X yc M g k hyc hM hg hfind
    have hc := checkIsFitted_ok_of_some hyc hM
    have hmw : mapGroupsWith (dget M) (fun data r => m.qmT data r.2)
        (groupby g X) = .error (.keyErr k) :=
      mapGroupsWith_err_first hfind
    have hcore : precipPredictCore m X = .error (.keyErr k) := by
      unfold precipPredictCore applyTimeGrouper qmTransformByGroup
      simp only [hc, hg, hM, hmw]
    have hpred : precipPredict m X = .error (.keyErr k) := by
      unfold precipPredict
      simp only [hcore]
    refine ⟨hpred, ?_, ?_⟩
    · have := List.find?_some hfind
      simpa [Option.isNone_iff_eq_none] using this
    · intro out hout
      rw [hpred] at hout
      exact absurd hout (by simp)
  · intro m X yc xc M g r hyc hM hxc hg hv hr hmiss
    have hc := checkIsFitted_ok_of_some hyc hM
    have hrm_idx : (applyRolling m.climate_trend X).map Prod.fst =
        X.map Prod.fst := by
      rw [applyRolling_char m.climate_trend hv]
      exact map_fst_map_value X _
    have hv_rm : validIdx (applyRolling m.climate_trend X) :=
      validIdx_of_fst_eq hv hrm_idx
    cases hrc : removeClimatology m (applyRolling m.climate_trend X) xc true with
    | error e =>
      obtain ⟨k, hk, hn⟩ := removeClimatology_true_error_char hg hrc
      have htp : tempPredict m X = .error e := by
        unfold tempPredict tempPredictCore
        simp only [hc, hxc, hrc]
      refine ⟨k, ?_, Or.inr hn, ?_⟩
      · rw [htp, hk]
      · intro out hout
        rw [htp] at hout
        exact absurd hout (by simp)
    | ok S =>
      obtain ⟨g1, _, hSeq, _⟩ := removeClimatology_ok_char hv_rm hrc
      have hS_idx : S.map Prod.fst = X.map Prod.fst := by
        rw [hSeq, map_fst_map_value]
        exact hrm_idx
      have hsub : alignedSub X S =
          .ok (X.zipWith (fun a b => (a.1, a.2 - b.2)) S) := by
        unfold alignedSub
        rw [if_pos hS_idx.symm]
      have hN_idx : (X.zipWith (fun a b => (a.1, a.2 - b.2)) S).map Prod.fst =
          X.map Prod.fst :=
        zipWith_row_map_fst _ X S (length_eq_of_fst_eq hS_idx.symm)
      have hcg := createGroups_true_of_ctKeyFn hg
        (X.zipWith (fun a b => (a.1, a.2 - b.2)) S)
      cases hmw : mapGroupsWith (dget M) (fun data r => m.qmT data r.2)
          (groupby g (X.zipWith (fun a b => (a.1, a.2 - b.2)) S)) with
      | ok dfs =>
        obtain ⟨kg, hkg, hkgnone⟩ := exists_missing_group hN_idx hr hmiss
        obtain ⟨c, hcok⟩ := mapGroupsWith_ok_lookup hmw kg hkg
        rw [hkgnone] at hcok
        exact absurd hcok (by simp)
      | error e =>
        obtain ⟨k, hk, hn⟩ := mapGroupsWith_error_char hmw
        have htp : tempPredict m X = .error e := by
          unfold tempPredict tempPredictCore qmTransformByGroup
          simp only [hc, hxc, hrc, hsub, hcg, hM, hmw]
        refine ⟨k, ?_, Or.inl hn, ?_⟩
        · rw [htp, hk]
        · intro out hout
          rw [htp] at hout
          exact absurd hout (by simp)

theorem predict_missing_mapper_keyerror_witness :
    (mPw.y_climo_ = some [(1, 2)] ∧
      mPw.quantile_mappers_ = some [(1, [2])] ∧
      cfgKey mPw.time_grouper = some MONTH_GROUPER ∧
      ((groupby MONTH_GROUPER [(⟨2001, 2, 7⟩, 4)]).map Prod.fst).find?
        (fun k => (dget [(1, [(2 : ℚ)])] k).isNone) = some 2 ∧
      (precipPredict mPw [(⟨2001, 2, 7⟩, 4)] = .error (.keyErr 2) ∧
        dget [(1, [(2 : ℚ)])] 2 = none ∧
        ∀ out, precipPredict mPw [(⟨2001, 2, 7⟩, 4)] ≠ .ok out)) ∧
    (mTw.y_climo_ = some [(1, 2)] ∧
      mTw.quantile_mappers_ = some [(1, [2])] ∧
      mTw.x_climo = some [(1, 2)] ∧
      ctKeyFn mTw true = some MONTH_GROUPER ∧ validIdx [(⟨2001, 2, 7⟩, 4)] ∧
      ((⟨2001, 2, 7⟩, (4 : ℚ)) ∈ ([(⟨2001, 2, 7⟩, 4)] : TSeries)) ∧
      dget [(1, [(2 : ℚ)])] (MONTH_GROUPER ⟨2001, 2, 7⟩) = none ∧
      (∃ k, tempPredict mTw [(⟨2001, 2, 7⟩, 4)] = .error (.keyErr k) ∧
        (dget [(1, [(2 : ℚ)])] k = none ∨ dget [(1, (2 : ℚ))] k = none) ∧
        ∀ out, tempPredict mTw [(⟨2001, 2, 7⟩, 4)] ≠ .ok out)) := by
  have h1 : mPw.y_climo_ = some [(1, 2)] := by with_unfolding_all rfl
  have h2 : mPw.quantile_mappers_ = some [(1, [2])] := by with_unfolding_all rfl
  have h3 : cfgKey mPw.time_grouper = some MONTH_GROUPER := by
    with_unfolding_all rfl
  have h4 : ((groupby MONTH_GROUPER [(⟨2001, 2, 7⟩, 4)]).map Prod.fst).find?
      (fun k => (dget [(1, [(2 : ℚ)])] k).isNone) = some 2 := by
    with_unfolding_all rfl
  have t1 : mTw.y_climo_ = some [(1, 2)] := by with_unfolding_all rfl
  have t2 : mTw.quantile_mappers_ = some [(1, [2])] := by with_unfolding_all rfl
  have t3 : mTw.x_climo = some [(1, 2)] := by with_unfolding_all rfl
  have t4 : ctKeyFn mTw true = some MONTH_GROUPER := by with_unfolding_all rfl
  have t5 : validIdx [(⟨2001, 2, 7⟩, 4)] := by decide
  have t6 : (⟨2001, 2, 7⟩, (4 : ℚ)) ∈ ([(⟨2001, 2, 7⟩, 4)] : TSeries) := by
    simp
  have t7 : dget [(1, [(2 : ℚ)])] (MONTH_GROUPER ⟨2001, 2, 7⟩) = none := by
    with_unfolding_all rfl
  exact ⟨⟨h1, h2, h3, h4,
      predict_missing_mapper_keyerror.1 mPw [(⟨2001, 2, 7⟩, 4)] _ _ _ 2
        h1 h2 h3 h4⟩,
    ⟨t1, t2, t3, t4, t5, t6, t7,
      predict_missing_mapper_keyerror.2 mTw [(⟨2001, 2, 7⟩, 4)] _ _ _ _ _
        t1 t2 t3 t4 t5 t6 t7⟩⟩

/-- A fresh precipitation model (about to be fit) and a target series
whose only (January) group mean is negative. -/
def mPneg : Model := initBcsd (.fn MONTH_GROUPER) true DAY_GROUPER qmIdent

def yNeg : TSeries := [(⟨2000, 1, 1⟩, -1)]

/-- C2 counterexample: fitting on a target with a non-positive group
mean aborts with the domain-validity error, and no quantile mapper is
fit — but the partial climatology IS stored on the instance
(`y_climo_` is assigned before the check), contradicting the claim that
the fitted state is unchanged with no partial climatology stored. -/
theorem precip_fit_stores_partial_climo_cex :
    (precipFit mPneg [] yNeg).2 =
      .error (.valueErr "Invalid value in target climatology") ∧
    (precipFit mPneg [] yNeg).1.y_climo_ = some [(1, -1)] ∧
    (precipFit mPneg [] yNeg).1.y_climo_ ≠ none := by
  have h2 : (precipFit mPneg [] yNeg).1.y_climo_ = some [(1, -1)] := by
    with_unfolding_all rfl
  refine ⟨by with_unfolding_all rfl, h2, ?_⟩
  rw [h2]
  simp

/-- C2 amended: on a fresh (not yet fit) model, a target whose per-group
climatology has minimum ≤ 0 makes `fit` abort with the domain-validity
error before any quantile mapper is fit; `quantile_mappers_` stays
absent, so the model remains unfit (`check_is_fitted` still fails) — but
the offending climatology itself is stored in `y_climo_` before the
error is raised. -/
theorem precip_fit_nonpositive_aborts (m : Model) (X y : TSeries)
    (gs : List (Nat × TSeries)) (v : ℚ)
    (hunfit : m.quantile_mappers_ = none)
    (hg : applyTimeGrouper m.time_grouper y = .ok gs)
    (hmin : ((groupMeans gs).map Prod.snd).min? = some v)
    (hv : v ≤ 0) :
    (precipFit m X y).2 =
      .error (.valueErr "Invalid value in target climatology") ∧
    (precipFit m X y).1.quantile_mappers_ = none ∧
    (∃ e, checkIsFitted (precipFit m X y).1 = .error e) ∧
    (precipFit m X y).1.y_climo_ = some (groupMeans gs) := by
  unfold precipFit
  simp only [hg, hmin, if_pos hv]
  refine ⟨by trivial, by simpa using hunfit, ?_, by trivial⟩
  refine ⟨.notFittedErr ["quantile_mappers_"], ?_⟩
  unfold checkIsFitted
  simp [hunfit]

theorem precip_fit_nonpositive_aborts_witness :
    mPneg.quantile_mappers_ = none ∧
    applyTimeGrouper mPneg.time_grouper yNeg =
      .ok [(1, [(⟨2000, 1, 1⟩, -1)])] ∧
    ((groupMeans [(1, [(⟨2000, 1, 1⟩, -1)])]).map Prod.snd).min? = some (-1) ∧
    ((-1 : ℚ) ≤ 0) ∧
    ((precipFit mPneg [] yNeg).2 =
        .error (.valueErr "Invalid value in target climatology") ∧
      (precipFit mPneg [] yNeg).1.quantile_mappers_ = none ∧
      (∃ e, checkIsFitted (precipFit mPneg [] yNeg).1 = .error e) ∧
      (precipFit mPneg [] yNeg).1.y_climo_ =
        some (groupMeans [(1, [(⟨2000, 1, 1⟩, -1)])])) := by
  have h1 : mPneg.quantile_mappers_ = none := rfl
  have h2 : applyTimeGrouper mPneg.time_grouper yNeg =
      .ok [(1, [(⟨2000, 1, 1⟩, -1)])] := by with_unfolding_all rfl
  have h3 : ((groupMeans [(1, [((⟨2000, 1, 1⟩ : Ts), (-1 : ℚ))])]).map
      Prod.snd).min? = some (-1) := by with_unfolding_all rfl
  have h4 : (-1 : ℚ) ≤ 0 := by norm_num
  exact ⟨h1, h2, h3, h4,
    precip_fit_nonpositive_aborts mPneg [] yNeg _ _ h1 h2 h3 h4⟩

/-- C6: in the temperature predict pipeline, the shift that is restored
after quantile mapping is elementwise exactly the shift that was removed
before it: `X_qm_with_shift - Xqm = X_shift` and likewise the detrending
step satisfies `X - X_no_shift = X_shift`. -/
theorem temp_shift_roundtrip (m : Model) (X S N Q R : TSeries)
    (hv : validIdx X) (h : tempPredictCore m X = .ok (S, N, Q, R)) :
    R.length = Q.length ∧ X.length = N.length ∧
    (∀ i, i < R.length →
      (R.getD i r0).2 - (Q.getD i r0).2 = (S.getD i r0).2) ∧
    (∀ i, i < X.length →
      (X.getD i r0).2 - (N.getD i r0).2 = (S.getD i r0).2) := by
  obtain ⟨hS_idx, hN, hQ_idx, hR, hR_idx⟩ := tempPredictCore_ok_char hv h
  have hlXS : X.length = S.length :=
    (length_eq_of_fst_eq hS_idx).symm
  have hlXQ : X.length = Q.length :=
    (length_eq_of_fst_eq hQ_idx).symm
  subst hN
  subst hR
  refine ⟨by simp; omega, by simp; omega, ?_, ?_⟩
  · intro i hi
    simp only [List.length_zipWith] at hi
    have hiS : i < S.length := by omega
    have hiQ : i < Q.length := by omega
    have hiZ : i < (S.zipWith (fun r s => (r.1, r.2 + s.2)) Q).length := by
      simp
      omega
    rw [List.getD_eq_getElem _ _ hiZ, List.getD_eq_getElem _ _ hiQ,
      List.getD_eq_getElem _ _ hiS]
    simp only [List.getElem_zipWith]
    ring
  · intro i hi
    have hiS : i < S.length := by omega
    have hiZ : i < (X.zipWith (fun r s => (r.1, r.2 - s.2)) S).length := by
      simp
      omega
    rw [List.getD_eq_getElem _ _ hi, List.getD_eq_getElem _ _ hiZ,
      List.getD_eq_getElem _ _ hiS]
    simp only [List.getElem_zipWith]
    ring

theorem temp_shift_roundtrip_witness :
    validIdx Xw ∧
    tempPredictCore mTw Xw =
      .ok ([(⟨2001, 1, 7⟩, 8)], [(⟨2001, 1, 7⟩, 2)],
        [(⟨2001, 1, 7⟩, 2)], [(⟨2001, 1, 7⟩, 10)]) ∧
    (([((⟨2001, 1, 7⟩ : Ts), (10 : ℚ))] : TSeries).length =
        ([((⟨2001, 1, 7⟩ : Ts), (2 : ℚ))] : TSeries).length ∧
      Xw.length = ([((⟨2001, 1, 7⟩ : Ts), (2 : ℚ))] : TSeries).length ∧
      (∀ i, i < ([((⟨2001, 1, 7⟩ : Ts), (10 : ℚ))] : TSeries).length →
        (([((⟨2001, 1, 7⟩ : Ts), (10 : ℚ))] : TSeries).getD i r0).2 -
            (([((⟨2001, 1, 7⟩ : Ts), (2 : ℚ))] : TSeries).getD i r0).2 =
          (([((⟨2001, 1, 7⟩ : Ts), (8 : ℚ))] : TSeries).getD i r0).2) ∧
      (∀ i, i < Xw.length →
        ((Xw.getD i r0).2 -
            (([((⟨2001, 1, 7⟩ : Ts), (2 : ℚ))] : TSeries).getD i r0).2 =
          (([((⟨2001, 1, 7⟩ : Ts), (8 : ℚ))] : TSeries).getD i r0).2))) := by
  have hcore : tempPredictCore mTw Xw =
      .ok ([(⟨2001, 1, 7⟩, 8)], [(⟨2001, 1, 7⟩, 2)],
        [(⟨2001, 1, 7⟩, 2)], [(⟨2001, 1, 7⟩, 10)]) := by
    with_unfolding_all rfl
  exact ⟨by decide, hcore,
    temp_shift_roundtrip mTw Xw _ _ _ _ (by decide) hcore⟩

theorem drop_take_eq_map_range' (xs : List ℚ) (lo len : Nat)
    (h : lo + len ≤ xs.length) :
    (xs.drop lo).take len = (List.range' lo len).map (fun j => xs.getD j 0) := by
  apply List.ext_getElem
  · simp
    omega
  · intro j h1 h2
    have hjlen : j < len := by
      simp at h2
      omega
    have hjb : lo + j < xs.length := by omega
    rw [List.getElem_take, List.getElem_drop, List.getElem_map,
      List.getElem_range'_1, List.getD_eq_getElem _ _ hjb]

/-- The centered window-9 rolling mean at an in-range position is the
mean over exactly the in-range positions at distance at most 4, and that
window is never empty (edge windows shrink; no missing values). -/
theorem rollingMeanAt_window (xs : List ℚ) (i : Nat) (hi : i < xs.length) :
    ∃ idxs : List Nat, idxs ≠ [] ∧ idxs.Nodup ∧
      (∀ j, j ∈ idxs ↔ (j < xs.length ∧ Nat.dist j i ≤ 4)) ∧
      rollingMeanAt xs i =
        (idxs.map (fun j => xs.getD j 0)).sum / idxs.length := by
  refine ⟨List.range' (i - 4) (min (i + 5) xs.length - (i - 4)), ?_, ?_, ?_, ?_⟩
  · apply List.ne_nil_of_length_pos
    simp [List.length_range']
    omega
  · exact List.nodup_range' _ _
  · intro j
    rw [List.mem_range']
    constructor
    · rintro ⟨k, hk, rfl⟩
      simp [Nat.dist]
      omega
    · intro ⟨hj1, hj2⟩
      simp [Nat.dist] at hj2
      refine ⟨j - (i - 4), by omega, by omega⟩
  · have hw : (xs.take (i + 5)).drop (i - 4) =
        (List.range' (i - 4) (min (i + 5) xs.length - (i - 4))).map
          (fun j => xs.getD j 0) := by
      rw [List.drop_take]
      have hcase : xs.take ((i + 5) - (i - 4)) = xs.take ((i+5) - (i-4)) := rfl
      by_cases hle : (i + 5) ≤ xs.length
      · have hmin : min (i + 5) xs.length - (i - 4) = (i + 5) - (i - 4) := by
          omega
        rw [hmin]
        rw [← List.drop_take]
        rw [List.drop_take]
        exact drop_take_eq_map_range' xs (i - 4) ((i + 5) - (i - 4)) (by omega)
      · have hmin : min (i + 5) xs.length - (i - 4) = xs.length - (i - 4) := by
          omega
        rw [hmin]
        have hdl : (xs.drop (i - 4)).length = xs.length - (i - 4) := by simp
        have htk : (xs.drop (i - 4)).take ((i + 5) - (i - 4)) =
            (xs.drop (i - 4)).take (xs.length - (i - 4)) := by
          rw [List.take_of_length_le (by omega : (xs.drop (i - 4)).length ≤ (i + 5) - (i - 4))]
          rw [List.take_of_length_le (by omega : (xs.drop (i - 4)).length ≤ xs.length - (i - 4))]
        rw [htk]
        exact drop_take_eq_map_range' xs (i - 4) (xs.length - (i - 4)) (by omega)
    unfold rollingMeanAt
    rw [hw]
    simp [List.length_range']

/-- C9: the temperature trend step always groups the query by calendar
month — `climate_trend` is `MONTH_GROUPER` on every constructor path,
daily or monthly — and within each month group applies the centered
9-window rolling mean with minimum one period: the reassembled trend
keeps the query's index, each sample's trend value is the rolling mean
of its own month group at the sample's rank, and each such value is the
mean over the non-empty clipped window of in-group ranks at distance at
most 4. -/
theorem temp_trend_rolling_spec :
    (∀ (tg : TimeGrouperArg) (ra : Bool) (cg : Ts → Nat)
        (qt : List ℚ → ℚ → ℚ),
      (initBcsd tg ra cg qt).climate_trend = MONTH_GROUPER) ∧
    (∀ (X : TSeries), validIdx X →
      applyRolling MONTH_GROUPER X = X.map (fun r => (r.1,
        rollingMeanAt ((sameKeyGroup MONTH_GROUPER X r).map Prod.snd)
          ((sameKeyGroup MONTH_GROUPER X r).countP
            (fun s => decide (rowLt s r))))) ∧
      (applyRolling MONTH_GROUPER X).map Prod.fst = X.map Prod.fst) ∧
    (∀ (xs : List ℚ) (i : Nat), i < xs.length →
      ∃ idxs : List Nat, idxs ≠ [] ∧ idxs.Nodup ∧
        (∀ j, j ∈ idxs ↔ (j < xs.length ∧ Nat.dist j i ≤ 4)) ∧
        rollingMeanAt xs i =
          (idxs.map (fun j => xs.getD j 0)).sum / idxs.length) := by
  refine ⟨?_, ?_, rollingMeanAt_window⟩
  · intro tg ra cg qt
    cases tg with
    | fn f => rfl
    | str s =>
      by_cases hs : s = "daily_nasa-nex"
      · simp [initBcsd, hs]
      · simp [initBcsd, hs]
  · intro X hv
    refine ⟨applyRolling_char MONTH_GROUPER hv, ?_⟩
    rw [applyRolling_char MONTH_GROUPER hv]
    exact map_fst_map_value X _

theorem temp_trend_rolling_spec_witness :
    validIdx Xw ∧ (0 : Nat) < ([(5 : ℚ), 6, 7] : List ℚ).length ∧
    (applyRolling MONTH_GROUPER Xw = Xw.map (fun r => (r.1,
        rollingMeanAt ((sameKeyGroup MONTH_GROUPER Xw r).map Prod.snd)
          ((sameKeyGroup MONTH_GROUPER Xw r).countP
            (fun s => decide (rowLt s r))))) ∧
      (applyRolling MONTH_GROUPER Xw).map Prod.fst = Xw.map Prod.fst) ∧
    (∃ idxs : List Nat, idxs ≠ [] ∧ idxs.Nodup ∧
      (∀ j, j ∈ idxs ↔ (j < ([(5 : ℚ), 6, 7] : List ℚ).length ∧
        Nat.dist j 0 ≤ 4)) ∧
      rollingMeanAt [(5 : ℚ), 6, 7] 0 =
        (idxs.map (fun j => ([(5 : ℚ), 6, 7] : List ℚ).getD j 0)).sum /
          idxs.length) :=
  ⟨by decide, by decide,
    temp_trend_rolling_spec.2.1 Xw (by decide),
    temp_trend_rolling_spec.2.2 [5, 6, 7] 0 (by decide)⟩

/-- A daily-resolution (NASA-NEX) model as constructed. -/
def mDaily : Model := initBcsd (.str "daily_nasa-nex") true DAY_GROUPER qmIdent

/-- A one-sample daily training series on February 10. -/
def xFeb : TSeries := [(⟨2000, 2, 10⟩, 7)]

/-- C4 counterexample: at daily resolution, `BcsdTemperature.fit`
computes the source climatology under the padded day-of-year grouping
(February 10 is stored under day-of-year key 41), not under the
day-of-month grouping (key 10) the claim describes. -/
theorem temp_source_climo_daily_cex :
    (tempFit mDaily xFeb xFeb).1.x_climo = some [(41, 7)] ∧
    groupMeans (groupby DAY_GROUPER xFeb) = [(10, 7)] ∧
    (tempFit mDaily xFeb xFeb).1.x_climo ≠
      some (groupMeans (groupby DAY_GROUPER xFeb)) := by
  have h1 : (tempFit mDaily xFeb xFeb).1.x_climo = some [(41, 7)] := by
    with_unfolding_all rfl
  have h2 : groupMeans (groupby DAY_GROUPER xFeb) = [(10, 7)] := by
    with_unfolding_all rfl
  refine ⟨h1, h2, ?_⟩
  rw [h1, h2]
  intro hc
  have := Option.some.inj hc
  simp at this

/-- C4 amended: `BcsdTemperature.fit` computes the source climatology
with the active resolution grouping: the configured `time_grouper` key
(calendar month for the default `MONTH_GROUPER`) at monthly timestep,
and the padded day-of-year grouping — not day-of-month — at daily
timestep. -/
theorem temp_source_climo_grouping (m : Model) (X y : TSeries) :
    (∀ g, m.timestep = some "monthly" → cfgKey m.time_grouper = some g →
      (tempFit m X y).1.x_climo = some (groupMeans (groupby g X))) ∧
    (m.timestep = some "daily" → m.time_grouper = .paddedDOY →
      (tempFit m X y).1.x_climo = some (groupMeans (paddedDOYGroups X))) := by
  constructor
  · intro g hts hg
    have hcg : createGroups m X false = .ok (groupby g X) := by
      unfold createGroups applyTimeGrouper
      simp only [hts, hg]
      simp
    unfold tempFit
    simp only [hcg]
    cases hcg2 : createGroups { m with x_climo := some (groupMeans (groupby g X)) } y false with
    | error e => simp only [hcg2]
    | ok yg => simp only [hcg2]
  · intro hts htg
    have hcg : createGroups m X false = .ok (paddedDOYGroups X) := by
      unfold createGroups
      simp only [hts, htg]
      simp
    unfold tempFit
    simp only [hcg]
    cases hcg2 : createGroups { m with x_climo := some (groupMeans (paddedDOYGroups X)) } y false with
    | error e => simp only [hcg2]
    | ok yg => simp only [hcg2]

theorem temp_source_climo_grouping_witness :
    (initBcsd (.fn MONTH_GROUPER) false DAY_GROUPER qmIdent).timestep =
      some "monthly" ∧
    cfgKey (initBcsd (.fn MONTH_GROUPER) false DAY_GROUPER qmIdent).time_grouper =
      some MONTH_GROUPER ∧
    (tempFit (initBcsd (.fn MONTH_GROUPER) false DAY_GROUPER qmIdent)
      Xw Xw).1.x_climo = some (groupMeans (groupby MONTH_GROUPER Xw)) ∧
    mDaily.timestep = some "daily" ∧ mDaily.time_grouper = .paddedDOY ∧
    (tempFit mDaily xFeb xFeb).1.x_climo =
      some (groupMeans (paddedDOYGroups xFeb)) := by
  refine ⟨rfl, rfl, ?_, rfl, rfl, ?_⟩
  · exact (temp_source_climo_grouping
      (initBcsd (.fn MONTH_GROUPER) false DAY_GROUPER qmIdent) Xw Xw).1
      MONTH_GROUPER rfl rfl
  · exact (temp_source_climo_grouping mDaily xFeb xFeb).2 rfl rfl

/-- A precipitation model on the `pd.Grouper` string path (`freq='MS'`),
and its state after a successful fit. -/
def mPdG : Model := initBcsd (.str "MS") true DAY_GROUPER qmIdent

def mPdGfit : Model := (precipFit mPdG [] [(⟨2000, 1, 15⟩, 2)]).1

/-- C10 counterexample: on the `pd.Grouper` path `timestep` is indeed
never assigned, yet the claim's conclusion that only the callable and
`'daily_nasa-nex'` paths yield a usable model is false:
`BcsdPrecipitation` never calls `_create_groups`, so its fit and predict
both complete on this path. -/
theorem pdgrouper_precip_usable_cex :
    mPdG.timestep = none ∧
    (precipFit mPdG [] [(⟨2000, 1, 15⟩, 2)]).2 = .ok () ∧
    precipPredict mPdGfit [(⟨2000, 1, 20⟩, 3)] =
      .ok [(⟨2000, 1, 20⟩, (3 : ℚ) / 2)] := by
  refine ⟨rfl, ?_, ?_⟩
  · with_unfolding_all rfl
  · with_unfolding_all rfl

/-- C10 amended: constructing with a frequency string other than
`'daily_nasa-nex'` leaves `timestep` unassigned, so `_create_groups` —
and hence `BcsdTemperature.fit` (and any temperature predict reaching a
grouping step) — fails with `AttributeError` on `timestep` before any
grouping is performed; `BcsdPrecipitation`, which never calls
`_create_groups`, can still fit and predict on this path. -/
theorem pdgrouper_timestep_unset (s : String) (ra : Bool)
    (cg : Ts → Nat) (qt : List ℚ → ℚ → ℚ) (hs : s ≠ "daily_nasa-nex") :
    (initBcsd (.str s) ra cg qt).timestep = none ∧
    (∀ df b, createGroups (initBcsd (.str s) ra cg qt) df b =
      .error (.attrErr "timestep")) ∧
    (∀ X y, (tempFit (initBcsd (.str s) ra cg qt) X y).2 =
      .error (.attrErr "timestep")) := by
  have h1 : (initBcsd (.str s) ra cg qt).timestep = none := by
    simp [initBcsd, hs]
  have h2 : ∀ df b, createGroups (initBcsd (.str s) ra cg qt) df b =
      .error (.attrErr "timestep") := by
    intro df b
    unfold createGroups
    simp only [h1]
  refine ⟨h1, h2, ?_⟩
  intro X y
  unfold tempFit
  simp only [h2]

theorem pdgrouper_timestep_unset_witness :
    ("MS" : String) ≠ "daily_nasa-nex" ∧
    ((initBcsd (.str "MS") true DAY_GROUPER qmIdent).timestep = none ∧
      (∀ df b, createGroups (initBcsd (.str "MS") true DAY_GROUPER qmIdent) df b =
        .error (.attrErr "timestep")) ∧
      (∀ X y, (tempFit (initBcsd (.str "MS") true DAY_GROUPER qmIdent) X y).2 =
        .error (.attrErr "timestep"))) :=
  ⟨by decide, pdgrouper_timestep_unset "MS" true DAY_GROUPER qmIdent (by decide)⟩

/-- The daily training target used to exhibit the C3 misalignment, and
the model fitted on it. -/
def yD : TSeries := [(⟨2000, 1, 31⟩, 5), (⟨2000, 2, 10⟩, 7)]

def mDfit : Model := (tempFit mDaily yD yD).1

/-- C3 (code evaluated at the failing input): at daily resolution the
quantile mappers are fitted under padded day-of-year keys (31 and 41 for
the training series Jan 31 / Feb 10), while predict's quantile-mapping
step groups the query by day-of-month.  A March 31 query sample gets
predict-time key 31, which looks up the mapper fitted from the padded
day-of-year-31 window `[5, 7]` — not from the day-of-month-31 group of
the target, `[5]` — and a February 10 query sample gets predict-time key
10, for which no mapper exists at all.  Fit-time and predict-time
groupings do not align. -/
theorem daily_fit_predict_grouping_misaligned :
    (tempFit mDaily yD yD).2 = .ok () ∧
    mDfit.quantile_mappers_ = some [(31, [5, 7]), (41, [5, 7])] ∧
    createGroups mDfit [(⟨2001, 3, 31⟩, 1)] true =
      .ok [(31, [(⟨2001, 3, 31⟩, 1)])] ∧
    dget [(31, [(5 : ℚ), 7]), (41, [5, 7])] 31 = some [5, 7] ∧
    (yD.filter (fun r => DAY_GROUPER r.1 == 31)).map Prod.snd = [5] ∧
    ([(5 : ℚ), 7] ≠ [5]) ∧
    createGroups mDfit [(⟨2001, 2, 10⟩, 1)] true =
      .ok [(10, [(⟨2001, 2, 10⟩, 1)])] ∧
    dget [(31, [(5 : ℚ), 7]), (41, [5, 7])] 10 = none := by
  refine ⟨?_, ?_, ?_, ?_, ?_, ?_, ?_, ?_⟩
  · with_unfolding_all rfl
  · with_unfolding_all rfl
  · with_unfolding_all rfl
  · with_unfolding_all rfl
  · with_unfolding_all rfl
  · decide
  · with_unfolding_all rfl
  · with_unfolding_all rfl

/-! ### Positivity of a fitted precipitation climatology -/

theorem foldl_min_le_init (l : List ℚ) (a : ℚ) : l.foldl min a ≤ a := by
  induction l generalizing a with
  | nil => simp
  | cons b t ih =>
    simp only [List.foldl_cons]
    exact le_trans (ih (min a b)) (min_le_left a b)

theorem foldl_min_le_mem {l : List ℚ} {x : ℚ} (hx : x ∈ l) (a : ℚ) :
    l.foldl min a ≤ x := by
  induction l generalizing a with
  | nil => simp at hx
  | cons b t ih =>
    simp only [List.foldl_cons]
    rcases List.mem_cons.mp hx with rfl | hm
    · exact le_trans (foldl_min_le_init t (min a x)) (min_le_right a x)
    · exact ih hm (min a b)

theorem min?_le_mem {l : List ℚ} {v x : ℚ} (h : l.min? = some v)
    (hx : x ∈ l) : v ≤ x := by
  cases l with
  | nil => simp at h
  | cons a t =>
    rw [List.min?_cons'] at h
    have hv := Option.some.inj h
    rcases List.mem_cons.mp hx with rfl | hm
    · rw [← hv]
      exact foldl_min_le_init t x
    · rw [← hv]
      exact foldl_min_le_mem hm a

theorem dget_some_mem {d : List (Nat × α)} {k : Nat} {c : α}
    (h : dget d k = some c) : c ∈ d.map Prod.snd := by
  unfold dget at h
  cases hf : d.find? (fun p => p.1 == k) with
  | none => rw [hf] at h; exact absurd h (by simp)
  | some p =>
    rw [hf] at h
    have hm := List.mem_of_find?_eq_some hf
    have hpc : p.2 = c := Option.some.inj h
    exact hpc ▸ List.mem_map_of_mem Prod.snd hm

/-- Characterisation of a successful `BcsdPrecipitation.fit`. -/
theorem precipFit_ok_char {m0 : Model} {X0 y0 : TSeries}
    (h : (precipFit m0 X0 y0).2 = .ok ()) :
    ∃ gs v, applyTimeGrouper m0.time_grouper y0 = .ok gs ∧
      ((groupMeans gs).map Prod.snd).min? = some v ∧ 0 < v ∧
      (precipFit m0 X0 y0).1 = { m0 with
        y_climo_ := some (groupMeans gs)
        quantile_mappers_ := some (qmFitByGroup gs) } := by
  unfold precipFit at h ⊢
  cases hg : applyTimeGrouper m0.time_grouper y0 with
  | error e =>
    simp only [hg] at h
    exact absurd h (by simp)
  | ok gs =>
    simp only [hg] at h ⊢
    cases hmin : ((groupMeans gs).map Prod.snd).min? with
    | none =>
      simp only [hmin] at h
      exact absurd h (by simp)
    | some v =>
      simp only [hmin] at h ⊢
      by_cases hv : v ≤ 0
      · rw [if_pos hv] at h
        exact absurd h (by simp)
      · rw [if_neg hv]
        exact ⟨gs, v, rfl, hmin, not_le.mp hv, rfl⟩

/-- C5: the anomaly output composes with the per-group target
climatology back to the absolute output.  For a fitted
BcsdPrecipitation model, predict-with-anomalies times the climatology of
each sample's group equals predict-without-anomalies elementwise (the
climatology entries are strictly positive by the fit-time check); for a
BcsdTemperature model, predict-with-anomalies plus the climatology of
each sample's group equals predict-without-anomalies elementwise. -/
theorem predict_anomaly_consistency :
    (∀ (m0 : Model) (X0 y0 X A R : TSeries), validIdx X →
      (precipFit m0 X0 y0).2 = .ok () →
      precipPredict (setAnoms (precipFit m0 X0 y0).1 true) X = .ok A →
      precipPredict (setAnoms (precipFit m0 X0 y0).1 false) X = .ok R →
      ∃ g climo, cfgKey m0.time_grouper = some g ∧
        (precipFit m0 X0 y0).1.y_climo_ = some climo ∧
        A.map Prod.fst = R.map Prod.fst ∧
        (∀ i, i < R.length → ∃ c, 0 < c ∧
          dget climo (g (R.getD i r0).1) = some c ∧
          (A.getD i r0).2 * c = (R.getD i r0).2)) ∧
    (∀ (m : Model) (X A R : TSeries), validIdx X →
      tempPredict (setAnoms m true) X = .ok A →
      tempPredict (setAnoms m false) X = .ok R →
      ∃ g yc, ctKeyFn m false = some g ∧ m.y_climo_ = some yc ∧
        A.map Prod.fst = R.map Prod.fst ∧
        (∀ i, i < R.length → ∃ c,
          dget yc (g (R.getD i r0).1) = some c ∧
          (A.getD i r0).2 + c = (R.getD i r0).2)) := by
  constructor
  · intro m0 X0 y0 X A R hv hfit hA hR
    obtain ⟨gs, v, hgrp, hmin, hvpos, hfit1⟩ := precipFit_ok_char hfit
    rw [hfit1] at hA hR
    unfold precipPredict at hA hR
    have hcoreEq : precipPredictCore (setAnoms { m0 with
        y_climo_ := some (groupMeans gs)
        quantile_mappers_ := some (qmFitByGroup gs) } false) X =
      precipPredictCore (setAnoms { m0 with
        y_climo_ := some (groupMeans gs)
        quantile_mappers_ := some (qmFitByGroup gs) } true) X := rfl
    rw [hcoreEq] at hR
    cases hcore : precipPredictCore (setAnoms { m0 with
        y_climo_ := some (groupMeans gs)
        quantile_mappers_ := some (qmFitByGroup gs) } true) X with
    | error e =>
      simp only [hcore] at hA
      exact absurd hA (by simp)
    | ok Xqm =>
      simp only [hcore] at hA hR
      rw [if_neg (by simp [setAnoms])] at hR
      have hRX : Xqm = R := Except.ok.inj hR
      simp only [setAnoms] at hA
      obtain ⟨g, M, hcfg, hM, hXqm, hlkX⟩ := precipPredictCore_ok_char hv hcore
      have hXqm_idx : Xqm.map Prod.fst = X.map Prod.fst := by
        rw [hXqm]
        exact map_fst_map_value X _
      have hvXqm : validIdx Xqm := validIdx_of_fst_eq hv hXqm_idx
      obtain ⟨g2, hcfg2, hAeq, hlk⟩ := calcRatioAnoms_ok_char hvXqm hA
      have hcfg0 : cfgKey m0.time_grouper = some g2 := hcfg2
      subst hRX
      subst hAeq
      refine ⟨g2, groupMeans gs, hcfg0, by rw [hfit1], ?_, ?_⟩
      · rw [map_fst_map_value]
      · intro i hi
        have hiM : i < (Xqm.map (fun r =>
            (r.1, r.2 / (dget (groupMeans gs) (g2 r.1)).getD 0))).length := by
          simpa using hi
        rw [List.getD_eq_getElem _ _ hi, List.getD_eq_getElem _ _ hiM,
          List.getElem_map]
        obtain ⟨c, hc⟩ := hlk Xqm[i] (Xqm.getElem_mem hi)
        have hcmem := dget_some_mem hc
        have hvc := min?_le_mem hmin hcmem
        have hcpos : 0 < c := lt_of_lt_of_le hvpos hvc
        refine ⟨c, hcpos, hc, ?_⟩
        rw [hc]
        simp only [Option.getD_some]
        exact div_mul_cancel₀ _ (ne_of_gt hcpos)
  · intro m X A R hv hA hR
    unfold tempPredict at hA hR
    have hceqA : tempPredictCore (setAnoms m true) X = tempPredictCore m X := rfl
    have hceqR : tempPredictCore (setAnoms m false) X = tempPredictCore m X := rfl
    rw [hceqA] at hA
    rw [hceqR] at hR
    cases hcore : tempPredictCore m X with
    | error e =>
      simp only [hcore] at hA
      exact absurd hA (by simp)
    | ok tup =>
      obtain ⟨S, N, Q, R0⟩ := tup
      simp only [hcore] at hA hR
      rw [if_neg (by simp [setAnoms])] at hR
      have hRR0 : R0 = R := Except.ok.inj hR
      simp only [setAnoms] at hA
      cases hyc : m.y_climo_ with
      | none =>
        simp only [hyc] at hA
        exact absurd hA (by simp)
      | some yc =>
        simp only [hyc] at hA
        obtain ⟨_, _, _, _, hR0_idx⟩ := tempPredictCore_ok_char hv hcore
        have hvR0 : validIdx R0 := validIdx_of_fst_eq hv hR0_idx
        obtain ⟨g, hg, hAeq, hlk⟩ := removeClimatology_ok_char hvR0 hA
        have hg0 : ctKeyFn m false = some g := hg
        subst hRR0
        subst hAeq
        refine ⟨g, yc, hg0, rfl, ?_, ?_⟩
        · rw [map_fst_map_value]
        · intro i hi
          have hiM : i < (R0.map (fun r =>
              (r.1, r.2 - (dget yc (g r.1)).getD 0))).length := by
            simpa using hi
          rw [List.getD_eq_getElem _ _ hi, List.getD_eq_getElem _ _ hiM,
            List.getElem_map]
          obtain ⟨c, hc⟩ := hlk R0[i] (R0.getElem_mem hi)
          refine ⟨c, hc, ?_⟩
          rw [hc]
          simp only [Option.getD_some]
          ring

/-- One-sample training target with positive January mean. -/
def yW : TSeries := [(⟨2000, 1, 1⟩, 2)]

theorem predict_anomaly_consistency_witness :
    validIdx Xw ∧
    (precipFit mPneg [] yW).2 = .ok () ∧
    precipPredict (setAnoms (precipFit mPneg [] yW).1 true) Xw =
      .ok [(⟨2001, 1, 7⟩, 5)] ∧
    precipPredict (setAnoms (precipFit mPneg [] yW).1 false) Xw =
      .ok [(⟨2001, 1, 7⟩, 10)] ∧
    (∃ g climo, cfgKey mPneg.time_grouper = some g ∧
      (precipFit mPneg [] yW).1.y_climo_ = some climo ∧
      ([((⟨2001, 1, 7⟩ : Ts), (5 : ℚ))] : TSeries).map Prod.fst =
        ([((⟨2001, 1, 7⟩ : Ts), (10 : ℚ))] : TSeries).map Prod.fst ∧
      (∀ i, i < ([((⟨2001, 1, 7⟩ : Ts), (10 : ℚ))] : TSeries).length →
        ∃ c, 0 < c ∧
          dget climo (g ((([((⟨2001, 1, 7⟩ : Ts), (10 : ℚ))] : TSeries).getD
            i r0).1)) = some c ∧
          (([((⟨2001, 1, 7⟩ : Ts), (5 : ℚ))] : TSeries).getD i r0).2 * c =
            (([((⟨2001, 1, 7⟩ : Ts), (10 : ℚ))] : TSeries).getD i r0).2)) ∧
    tempPredict (setAnoms mTw true) Xw = .ok [(⟨2001, 1, 7⟩, 8)] ∧
    tempPredict (setAnoms mTw false) Xw = .ok [(⟨2001, 1, 7⟩, 10)] ∧
    (∃ g yc, ctKeyFn mTw false = some g ∧ mTw.y_climo_ = some yc ∧
      ([((⟨2001, 1, 7⟩ : Ts), (8 : ℚ))] : TSeries).map Prod.fst =
        ([((⟨2001, 1, 7⟩ : Ts), (10 : ℚ))] : TSeries).map Prod.fst ∧
      (∀ i, i < ([((⟨2001, 1, 7⟩ : Ts), (10 : ℚ))] : TSeries).length →
        ∃ c, dget yc (g ((([((⟨2001, 1, 7⟩ : Ts), (10 : ℚ))] : TSeries).getD
            i r0).1)) = some c ∧
          (([((⟨2001, 1, 7⟩ : Ts), (8 : ℚ))] : TSeries).getD i r0).2 + c =
            (([((⟨2001, 1, 7⟩ : Ts), (10 : ℚ))] : TSeries).getD i r0).2)) := by
  have hfit : (precipFit mPneg [] yW).2 = .ok () := by with_unfolding_all rfl
  have hA : precipPredict (setAnoms (precipFit mPneg [] yW).1 true) Xw =
      .ok [(⟨2001, 1, 7⟩, 5)] := by with_unfolding_all rfl
  have hR : precipPredict (setAnoms (precipFit mPneg [] yW).1 false) Xw =
      .ok [(⟨2001, 1, 7⟩, 10)] := by with_unfolding_all rfl
  have hA2 : tempPredict (setAnoms mTw true) Xw = .ok [(⟨2001, 1, 7⟩, 8)] := by
    with_unfolding_all rfl
  have hR2 : tempPredict (setAnoms mTw false) Xw = .ok [(⟨2001, 1, 7⟩, 10)] := by
    with_unfolding_all rfl
  exact ⟨by decide, hfit, hA, hR,
    predict_anomaly_consistency.1 mPneg [] yW Xw _ _ (by decide) hfit hA hR,
    hA2, hR2,
    predict_anomaly_consistency.2 mTw Xw _ _ (by decide) hA2 hR2⟩

end Bcsd
